import Mathlib

/-!
Verification of the CampsiteJS static-site build pipeline.

JavaScript strings are modelled as lists of characters (`JStr`), file
trees as association lists from (output-relative) paths to contents,
and every embedded function mirrors the corresponding TypeScript
source function (`src/utils/paths.ts`, `src/utils/fs.ts`,
`src/config.ts`, `src/build/{assets,data,pages,pipeline}.ts`,
`src/render/engines.ts`, `src/dev/watcher.ts`) statement by statement.
-/

/-- A JavaScript string, modelled as its list of UTF-16-ish code points. -/
abbrev JStr := List Char

/-- Embed a Lean string literal into the model. -/
def js (s : String) : JStr := s.data

/-- The set of characters trimmed by JavaScript `String.prototype.trim`
and matched by the regex class `\s` (WhiteSpace plus LineTerminator). -/
def isJsWs (c : Char) : Bool :=
  c = ' ' || c = '\t' || c = '\n' || c = '\r' ||
  c.toNat = 0x0b || c.toNat = 0x0c || c.toNat = 0xa0 || c.toNat = 0x1680 ||
  (0x2000 ≤ c.toNat && c.toNat ≤ 0x200a) || c.toNat = 0x2028 ||
  c.toNat = 0x2029 || c.toNat = 0x202f || c.toNat = 0x205f ||
  c.toNat = 0x3000 || c.toNat = 0xfeff

/-- `s.startsWith(pre)`. -/
def jsStartsWith (s pre : JStr) : Bool := pre.isPrefixOf s

/-- `s.endsWith(suf)`. -/
def jsEndsWith (s suf : JStr) : Bool := suf.isSuffixOf s

/-- `s.slice(0, -n)` for `0 < n ≤ s.length` (drop the last `n` characters). -/
def dropRightN (s : JStr) (n : Nat) : JStr := s.take (s.length - n)

/-- `s.trimStart()`. -/
def jsTrimStart (s : JStr) : JStr := s.dropWhile isJsWs

/-- `s.trimEnd()`. -/
def jsTrimEnd (s : JStr) : JStr := (s.reverse.dropWhile isJsWs).reverse

/-- `s.trim()`. -/
def jsTrim (s : JStr) : JStr := jsTrimEnd (jsTrimStart s)

/-- `toUrlPath` from `src/utils/paths.ts`: convert an output-relative
path to a URL path. -/
def toUrlPath (outRel : JStr) : JStr :=
  let normalized := outRel.map (fun c => if c = '\\' then '/' else c)
  let path := '/' :: normalized
  let path :=
    if jsEndsWith path (js "index.html") then dropRightN path 10 else path
  let path :=
    if path ≠ js "/" && jsEndsWith path (js "/") then dropRightN path 1
    else path
  if path = [] then js "/" else path

/-- `normalizeUrl` from `src/utils/paths.ts`: normalize a URL for
comparison.  The guard `if (!url) return "/"` is reached by the empty
string (the only falsy string); `null`/`undefined` inputs are handled
by callers passing the empty list. -/
def normalizeUrl (url : JStr) : JStr :=
  if url = [] then js "/" else
  let n := jsTrim url
  let n := if n ≠ js "/" && jsEndsWith n (js "/") then dropRightN n 1 else n
  let n := if !jsStartsWith n (js "/") then '/' :: n else n
  if n ≠ js "/" && jsEndsWith n (js ".html") then dropRightN n 5 else n

/-- The `isActive` helper closed over by `pageContext`
(`src/config.ts`, page pipeline): tests whether `url` denotes the
current page at URL path `path`. -/
def isActive (path url : JStr) : Bool :=
  if url = [] then false else normalizeUrl path == normalizeUrl url

section StringLemmas

lemma js_slash : js "/" = ['/'] := rfl

lemma js_html : js ".html" = ['.', 'h', 't', 'm', 'l'] := rfl

lemma jsEndsWith_iff {s t : JStr} : jsEndsWith s t = true ↔ t <:+ s := by
  simp [jsEndsWith, List.isSuffixOf_iff_suffix]

lemma jsEndsWith_append (s t : JStr) : jsEndsWith (s ++ t) t = true := by
  simp [jsEndsWith_iff]

lemma jsEndsWith_cons {c : Char} {t : JStr} (x : JStr) (hc : c ∉ t) :
    jsEndsWith (c :: x) t = jsEndsWith x t := by
  rcases h : jsEndsWith x t with _ | _
  · rcases h2 : jsEndsWith (c :: x) t with _ | _
    · rfl
    · rw [jsEndsWith_iff] at h2
      rcases List.suffix_cons_iff.mp h2 with h3 | h3
      · exact absurd (h3 ▸ List.mem_cons_self c x) hc
      · rw [← jsEndsWith_iff] at h3
        rw [h] at h3
        exact h3.symm
  · rw [jsEndsWith_iff] at h ⊢
    exact h.trans (List.suffix_cons c x)

lemma jsEndsWith_singleton {s : JStr} {c : Char} :
    jsEndsWith s [c] = true ↔ s.getLast? = some c := by
  constructor
  · intro h
    rcases jsEndsWith_iff.mp h with ⟨u, rfl⟩
    simp
  · intro h
    rcases List.getLast?_eq_some_iff.mp h with ⟨u, rfl⟩
    exact jsEndsWith_append u [c]

lemma dropRightN_append (u t : JStr) : dropRightN (u ++ t) t.length = u := by
  simp [dropRightN, List.take_left']

lemma jsTrimStart_eq_self {s : JStr} {c : Char}
    (hh : s.head? = some c) (hc : isJsWs c = false) : jsTrimStart s = s := by
  rcases s with _ | ⟨a, s⟩
  · rfl
  · simp only [List.head?_cons, Option.some.injEq] at hh
    subst hh
    simp [jsTrimStart, List.dropWhile_cons, hc]

lemma jsTrimEnd_eq_self {s : JStr} {c : Char}
    (hh : s.getLast? = some c) (hc : isJsWs c = false) : jsTrimEnd s = s := by
  rcases List.getLast?_eq_some_iff.mp hh with ⟨u, rfl⟩
  simp [jsTrimEnd, List.dropWhile_cons, hc]

lemma jsTrim_eq_self {s : JStr} {c d : Char} (hh : s.head? = some c)
    (hc : isJsWs c = false) (hl : s.getLast? = some d)
    (hd : isJsWs d = false) : jsTrim s = s := by
  rw [jsTrim, jsTrimStart_eq_self hh hc, jsTrimEnd_eq_self hl hd]

end StringLemmas

section NormalizeUrlLemmas

lemma infix_append_right {i l : JStr} (t : JStr) (h : i <:+: l) :
    i <:+: l ++ t := by
  obtain ⟨s, u, rfl⟩ := h
  exact ⟨s, u ++ t, by simp⟩

lemma infix_append_left {i l : JStr} (t : JStr) (h : i <:+: l) :
    i <:+: t ++ l := by
  obtain ⟨s, u, rfl⟩ := h
  exact ⟨t ++ s, u, by simp⟩

lemma normalizeUrl_cons_eq_self {x : JStr}
    (hws : ∀ c, x.getLast? = some c → isJsWs c = false)
    (hsl : jsEndsWith x (js "/") = false)
    (hht : jsEndsWith x (js ".html") = false) :
    normalizeUrl ('/' :: x) = '/' :: x := by
  rcases List.eq_nil_or_concat x with rfl | ⟨u, d, rfl⟩
  · decide
  · rw [List.concat_eq_append] at *
    have hd : isJsWs d = false := hws d (List.getLast?_concat u)
    have hlast : ('/' :: (u ++ [d])).getLast? = some d := by
      rw [← List.cons_append]
      exact List.getLast?_concat _
    have htrim : jsTrim ('/' :: (u ++ [d])) = '/' :: (u ++ [d]) :=
      jsTrim_eq_self (show _ = some '/' from rfl) (by decide) hlast hd
    have hdne : d ≠ '/' := by
      intro h
      rw [h] at hsl
      rw [js_slash, jsEndsWith_append u ['/']] at hsl
      exact Bool.noConfusion hsl
    have hends1 : jsEndsWith ('/' :: (u ++ [d])) (js "/") = false := by
      rcases h : jsEndsWith ('/' :: (u ++ [d])) (js "/") with _ | _
      · rfl
      · have h2 := jsEndsWith_singleton.mp h
        rw [hlast] at h2
        exact absurd (Option.some.inj h2) hdne
    have hstart : jsStartsWith ('/' :: (u ++ [d])) (js "/") = true := by
      simp [jsStartsWith, js, List.isPrefixOf]
    have hends2 : jsEndsWith ('/' :: (u ++ [d])) (js ".html") = false := by
      rw [jsEndsWith_cons (u ++ [d]) (by decide)]
      exact hht
    simp [normalizeUrl, htrim, hends1, hstart, hends2]

lemma normalizeUrl_html (x : JStr) :
    normalizeUrl ('/' :: (x ++ js ".html")) = '/' :: x := by
  have hsplit : '/' :: (x ++ js ".html") = ('/' :: x) ++ js ".html" := by simp
  have hlast : ('/' :: (x ++ js ".html")).getLast? = some 'l' := by
    rw [hsplit, List.getLast?_append]
    rfl
  have htrim : jsTrim ('/' :: (x ++ js ".html")) = '/' :: (x ++ js ".html") :=
    jsTrim_eq_self (show _ = some '/' from rfl) (by decide) hlast (by decide)
  have hends1 : jsEndsWith ('/' :: (x ++ js ".html")) (js "/") = false := by
    rcases h : jsEndsWith ('/' :: (x ++ js ".html")) (js "/") with _ | _
    · rfl
    · have h2 := jsEndsWith_singleton.mp h
      rw [hlast] at h2
      exact absurd (Option.some.inj h2) (by decide)
  have hstart : jsStartsWith ('/' :: (x ++ js ".html")) (js "/") = true := by
    simp [jsStartsWith, js, List.isPrefixOf]
  have hends2 : jsEndsWith ('/' :: (x ++ js ".html")) (js ".html") = true := by
    rw [hsplit]
    exact jsEndsWith_append _ _
  have hne : ('/' :: (x ++ js ".html") : JStr) ≠ js "/" := by
    intro h
    have hlen := congrArg List.length h
    rw [js_slash] at hlen
    simp [js_html] at hlen
  have hdrop : dropRightN ('/' :: (x ++ js ".html")) 5 = '/' :: x := by
    rw [hsplit]
    exact dropRightN_append ('/' :: x) (js ".html")
  simp [normalizeUrl, htrim, hends1, hstart, hends2, hne, hdrop]

lemma normalizeUrl_slash {x : JStr}
    (hht : jsEndsWith x (js ".html") = false) :
    normalizeUrl ('/' :: (x ++ js "/")) = '/' :: x := by
  have hsplit : '/' :: (x ++ js "/") = ('/' :: x) ++ ['/'] := by simp [js]
  have hlast : ('/' :: (x ++ js "/")).getLast? = some '/' := by
    rw [hsplit]
    exact List.getLast?_concat _
  have htrim : jsTrim ('/' :: (x ++ js "/")) = '/' :: (x ++ js "/") :=
    jsTrim_eq_self (show _ = some '/' from rfl) (by decide) hlast (by decide)
  have hends1 : jsEndsWith ('/' :: (x ++ js "/")) (js "/") = true := by
    rw [hsplit]
    exact jsEndsWith_append _ _
  have hne : ('/' :: (x ++ js "/") : JStr) ≠ js "/" := by
    intro h
    have hlen := congrArg List.length h
    rw [js_slash] at hlen
    simp [js_slash] at hlen
  have hdrop : dropRightN ('/' :: (x ++ js "/")) 1 = '/' :: x := by
    rw [hsplit]
    exact dropRightN_append ('/' :: x) ['/']
  have hstart : jsStartsWith ('/' :: x) (js "/") = true := by
    simp [jsStartsWith, js, List.isPrefixOf]
  have hends2 : jsEndsWith ('/' :: x) (js ".html") = false := by
    rw [jsEndsWith_cons x (by decide)]
    exact hht
  simp [normalizeUrl, htrim, hends1, hne, hdrop, hstart, hends2]

end NormalizeUrlLemmas

lemma js_index_html : js "index.html" = js "index.htm" ++ ['l'] := rfl

lemma js_html_split : js ".html" = js ".htm" ++ ['l'] := rfl

lemma map_bs_eq_self {p : JStr} (h : ('\\' : Char) ∉ p) :
    p.map (fun c => if c = '\\' then '/' else c) = p := by
  induction p with
  | nil => rfl
  | cons a t ih =>
    simp only [List.mem_cons, not_or] at h
    simp [ih h.2, if_neg (Ne.symm h.1)]

lemma getLast?_cons_append (u : JStr) (d : Char) :
    ('/' :: (u ++ [d])).getLast? = some d := by
  rw [← List.cons_append]
  exact List.getLast?_concat _

lemma jsEndsWith_slash_false {s : JStr} {d : Char}
    (hlast : s.getLast? = some d) (hd : d ≠ '/') :
    jsEndsWith s (js "/") = false := by
  rcases h : jsEndsWith s (js "/") with _ | _
  · rfl
  · have h2 := jsEndsWith_singleton.mp h
    rw [hlast] at h2
    exact absurd (Option.some.inj h2) hd

lemma toUrlPath_html_fixed {p : JStr}
    (h5 : jsEndsWith p (js ".html") = true)
    (hws : ∀ c ∈ p, isJsWs c = false)
    (hbs : ('\\' : Char) ∉ p)
    (hss : ¬ (js "//" <:+: ('/' :: p)))
    (honly : ¬ (js ".html" <:+: dropRightN p 1))
    (hps : jsEndsWith p (js "/.html") = false) :
    normalizeUrl (normalizeUrl (toUrlPath p)) = normalizeUrl (toUrlPath p) := by
  have hmap : p.map (fun c => if c = '\\' then '/' else c) = p := map_bs_eq_self hbs
  rcases hidx : jsEndsWith p (js "index.html") with _ | _
  · -- the path does not end in "index.html"
    obtain ⟨stem, hstem⟩ := jsEndsWith_iff.mp h5
    subst hstem
    have hidx2 : jsEndsWith ('/' :: (stem ++ js ".html")) (js "index.html") = false := by
      rw [jsEndsWith_cons _ (by decide)]
      exact hidx
    have hlastp : ('/' :: (stem ++ js ".html")).getLast? = some 'l' := by
      rw [show ('/' :: (stem ++ js ".html") : JStr) = ('/' :: stem) ++ js ".html" by simp,
        List.getLast?_append]
      rfl
    have hendsl : jsEndsWith ('/' :: (stem ++ js ".html")) (js "/") = false :=
      jsEndsWith_slash_false hlastp (by decide)
    have ht : toUrlPath (stem ++ js ".html") = '/' :: (stem ++ js ".html") := by
      simp only [toUrlPath]
      rw [hmap, hidx2]
      simp [hendsl]
    rw [ht, normalizeUrl_html stem]
    have hfix : normalizeUrl ('/' :: stem) = '/' :: stem := by
      apply normalizeUrl_cons_eq_self
      · intro c hc
        obtain ⟨u2, rfl⟩ := List.getLast?_eq_some_iff.mp hc
        exact hws c (by simp)
      · rcases h : jsEndsWith stem (js "/") with _ | _
        · rfl
        · exfalso
          obtain ⟨w, hw⟩ := jsEndsWith_iff.mp h
          rw [← hw, List.append_assoc,
            show (js "/" ++ js ".html" : JStr) = js "/.html" from rfl,
            jsEndsWith_append w _] at hps
          exact Bool.noConfusion hps
      · rcases h : jsEndsWith stem (js ".html") with _ | _
        · rfl
        · exfalso
          apply honly
          have hdrop : dropRightN (stem ++ js ".html") 1 = stem ++ js ".htm" := by
            rw [js_html_split, ← List.append_assoc]
            exact dropRightN_append _ ['l']
          rw [hdrop]
          exact infix_append_right _ (jsEndsWith_iff.mp h).isInfix
    simp only [hfix]
  · -- the path ends in "index.html"
    obtain ⟨r, hr⟩ := jsEndsWith_iff.mp hidx
    subst hr
    have hidx2 : jsEndsWith ('/' :: (r ++ js "index.html")) (js "index.html") = true := by
      rw [show ('/' :: (r ++ js "index.html") : JStr) = ('/' :: r) ++ js "index.html" by simp]
      exact jsEndsWith_append _ _
    have hdrop10 : dropRightN ('/' :: (r ++ js "index.html")) 10 = '/' :: r := by
      rw [show ('/' :: (r ++ js "index.html") : JStr) = ('/' :: r) ++ js "index.html" by simp]
      exact dropRightN_append ('/' :: r) (js "index.html")
    rcases List.eq_nil_or_concat r with rfl | ⟨w, e, rfl⟩
    · decide
    · rw [List.concat_eq_append] at *
      have hdropP : dropRightN ((w ++ [e]) ++ js "index.html") 1
          = (w ++ [e]) ++ js "index.htm" := by
        rw [js_index_html, ← List.append_assoc]
        exact dropRightN_append _ ['l']
      by_cases he : e = '/'
      · subst he
        have hr_ne : decide (('/' :: (w ++ ['/']) : JStr) ≠ js "/") = true := by
          simp [js_slash]
        have hr_ends : jsEndsWith ('/' :: (w ++ ['/'])) (js "/") = true := by
          rw [js_slash,
            show ('/' :: (w ++ ['/']) : JStr) = ('/' :: w) ++ ['/'] by simp]
          exact jsEndsWith_append _ _
        have hdrop1 : dropRightN ('/' :: (w ++ ['/'])) 1 = '/' :: w := by
          rw [show ('/' :: (w ++ ['/']) : JStr) = ('/' :: w) ++ ['/'] by simp]
          exact dropRightN_append ('/' :: w) ['/']
        have ht : toUrlPath ((w ++ ['/']) ++ js "index.html") = '/' :: w := by
          simp only [toUrlPath]
          rw [hmap, hidx2]
          simp only [eq_self_iff_true, if_true]
          rw [hdrop10, hr_ne, hr_ends, hdrop1]
          simp
        rw [ht]
        have hfix : normalizeUrl ('/' :: w) = '/' :: w := by
          apply normalizeUrl_cons_eq_self
          · intro c hc
            obtain ⟨u2, rfl⟩ := List.getLast?_eq_some_iff.mp hc
            exact hws c (by simp)
          · rcases h : jsEndsWith w (js "/") with _ | _
            · rfl
            · exfalso
              apply hss
              obtain ⟨v, hv⟩ := jsEndsWith_iff.mp h
              have hsuf : js "//" <:+ (w ++ ['/']) := by
                rw [← hv, js_slash, List.append_assoc]
                exact ⟨v, rfl⟩
              have : js "//" <:+: ((w ++ ['/']) ++ js "index.html") :=
                infix_append_right _ hsuf.isInfix
              simpa using infix_append_left ['/'] this
          · rcases h : jsEndsWith w (js ".html") with _ | _
            · rfl
            · exfalso
              apply honly
              rw [hdropP]
              have : js ".html" <:+: (w ++ ['/']) :=
                infix_append_right _ (jsEndsWith_iff.mp h).isInfix
              exact infix_append_right _ this
        simp only [hfix]
      · have hlast : ('/' :: (w ++ [e])).getLast? = some e :=
          getLast?_cons_append w e
        have hr_ends : jsEndsWith ('/' :: (w ++ [e])) (js "/") = false :=
          jsEndsWith_slash_false hlast he
        have ht : toUrlPath ((w ++ [e]) ++ js "index.html") = '/' :: (w ++ [e]) := by
          simp only [toUrlPath]
          rw [hmap, hidx2]
          simp only [eq_self_iff_true, if_true]
          rw [hdrop10, hr_ends]
          simp
        rw [ht]
        have hfix : normalizeUrl ('/' :: (w ++ [e])) = '/' :: (w ++ [e]) := by
          apply normalizeUrl_cons_eq_self
          · intro c hc
            rw [List.getLast?_concat] at hc
            have hce : e = c := Option.some.inj hc
            exact hws c (by simp [← hce])
          · rcases h : jsEndsWith (w ++ [e]) (js "/") with _ | _
            · rfl
            · exfalso
              have h2 := jsEndsWith_singleton.mp (js_slash ▸ h)
              rw [List.getLast?_concat] at h2
              exact he (Option.some.inj h2)
          · rcases h : jsEndsWith (w ++ [e]) (js ".html") with _ | _
            · rfl
            · exfalso
              apply honly
              rw [hdropP]
              exact infix_append_right _ (jsEndsWith_iff.mp h).isInfix
        simp only [hfix]

/-- Claim C1 (amended).  The claim as frozen is false in general (see
`c1_counterexample`): `normalizeUrl (toUrlPath p)` need not be a fixed
point of `normalizeUrl` (e.g. `p = "a.html.html"`), and the three
normalizations of `"/x"`, `"/x.html"`, `"/x/"` can differ (e.g.
`x = "a/"`).  Amended: (1) for every output-relative path `p` ending in
`".html"` that contains no whitespace and no backslash, in which `"//"`
does not occur, `".html"` occurs only as the final suffix, and that
suffix is not preceded by `"/"`, the value `normalizeUrl (toUrlPath p)`
is a fixed point of `normalizeUrl`; and (2) for every string `x` that
does not end in `"/"`, `".html"`, or a whitespace character, the values
`normalizeUrl ("/" + x)`, `normalizeUrl ("/" + x + ".html")` and
`normalizeUrl ("/" + x + "/")` coincide, hence the `isActive` predicate
of `pageContext` cannot distinguish the three spellings. -/
theorem c1_url_normalization_amended :
    (∀ p : JStr, jsEndsWith p (js ".html") = true →
      (∀ c ∈ p, isJsWs c = false) →
      ('\\' : Char) ∉ p →
      ¬ (js "//" <:+: ('/' :: p)) →
      ¬ (js ".html" <:+: dropRightN p 1) →
      jsEndsWith p (js "/.html") = false →
      normalizeUrl (normalizeUrl (toUrlPath p)) = normalizeUrl (toUrlPath p)) ∧
    (∀ x : JStr, (∀ c, x.getLast? = some c → isJsWs c = false) →
      jsEndsWith x (js "/") = false →
      jsEndsWith x (js ".html") = false →
      normalizeUrl ('/' :: x) = normalizeUrl ('/' :: (x ++ js ".html")) ∧
      normalizeUrl ('/' :: x) = normalizeUrl ('/' :: (x ++ js "/")) ∧
      ∀ path : JStr,
        isActive path ('/' :: x) = isActive path ('/' :: (x ++ js ".html")) ∧
        isActive path ('/' :: x) = isActive path ('/' :: (x ++ js "/"))) := by
  constructor
  · intro p h5 hws hbs hss honly hps
    exact toUrlPath_html_fixed h5 hws hbs hss honly hps
  · intro x hws hsl hht
    have h1 := normalizeUrl_cons_eq_self hws hsl hht
    have h2 := normalizeUrl_html x
    have h3 := normalizeUrl_slash hht
    refine ⟨by rw [h1, h2], by rw [h1, h3], ?_⟩
    intro path
    constructor
    · simp only [isActive, h1, h2]
      simp
    · simp only [isActive, h1, h3]
      simp

/-- Counterexample to claim C1 as frozen: for the output-relative path
`"a.html.html"` (reachable, e.g. from a page source `a.html.njk`),
`normalizeUrl (toUrlPath p)` is not a fixed point of `normalizeUrl`;
and for `x = "a/"`, `normalizeUrl "/a/"` differs from
`normalizeUrl "/a/.html"`. -/
theorem c1_counterexample :
    normalizeUrl (normalizeUrl (toUrlPath (js "a.html.html")))
      ≠ normalizeUrl (toUrlPath (js "a.html.html")) ∧
    normalizeUrl (js "/a/") ≠ normalizeUrl (js "/a/.html") := by
  decide

/-- Witness for `c1_url_normalization_amended` at the concrete inputs
`p = "about/index.html"` and `x = "about"`. -/
theorem c1_witness :
    normalizeUrl (normalizeUrl (toUrlPath (js "about/index.html")))
      = normalizeUrl (toUrlPath (js "about/index.html")) ∧
    normalizeUrl ('/' :: js "about")
      = normalizeUrl ('/' :: (js "about" ++ js ".html")) :=
  ⟨c1_url_normalization_amended.1 (js "about/index.html") (by decide)
      (by decide) (by decide) (by decide) (by decide) (by decide),
    (c1_url_normalization_amended.2 (js "about")
      (by decide) (by decide) (by decide)).1⟩

section PathUtils

/-- ASCII lowercasing, the fragment of JavaScript `toLowerCase`
exercised by the pipeline (file names and patterns). -/
def jsToLower (s : JStr) : JStr := s.map Char.toLower

/-- Case-insensitive `endsWith`, as performed by an `/i` regex. -/
def jsEndsWithCI (s suf : JStr) : Bool :=
  jsEndsWith (jsToLower s) (jsToLower suf)

/-- Strip trailing `/` separators (shared by Node `path.posix`
`basename`/`dirname`). -/
def stripTrailingSlashes (s : JStr) : JStr :=
  (s.reverse.dropWhile (· = '/')).reverse

/-- Node `path.posix.basename(p)`: the final path component. -/
def basenameJ (p : JStr) : JStr :=
  let t := stripTrailingSlashes p
  (t.reverse.takeWhile (· ≠ '/')).reverse

/-- Node `path.posix.basename(p, suffix)`: the final component, with
`suffix` removed when the component ends with it without being equal
to it. -/
def basenameSuffix (p suffix : JStr) : JStr :=
  let b := basenameJ p
  if b ≠ suffix && jsEndsWith b suffix then dropRightN b suffix.length else b

/-- Node `path.posix.extname(p)`: the suffix of the final component
from its last dot; empty when there is no dot, when the last dot is
the component's first character, or when the component is `".."`. -/
def extnameJ (p : JStr) : JStr :=
  let b := basenameJ p
  let afterRev := b.reverse.takeWhile (· ≠ '.')
  if afterRev.length = b.length then []
  else if afterRev.length + 1 = b.length then []
  else if b = js ".." then []
  else '.' :: afterRev.reverse

/-- `getExt` from `src/utils/fs.ts`: lowercased extension. -/
def getExt (filePath : JStr) : JStr := jsToLower (extnameJ filePath)

/-- Node `path.posix.dirname(p)`. -/
def dirnameJ (p : JStr) : JStr :=
  if p = [] then js "." else
  let hasRoot := p.head? = some '/'
  let rev := p.reverse
  let afterTrail := rev.dropWhile (· = '/')
  let rest := afterTrail.dropWhile (· ≠ '/')
  let prefixRev := rest.drop 1
  if rest = [] then (if hasRoot then js "/" else js ".")
  else if prefixRev = [] then (if hasRoot then js "/" else js ".")
  else if hasRoot ∧ prefixRev.length = 1 then js "//"
  else prefixRev.reverse

/-- Node `path.posix.join(dir, name)` for the argument shapes this
pipeline produces (`dir` from `dirname`, `name` a plain file name):
`join(".", n) = n`; otherwise concatenation with a single `/`. -/
def joinJ (dir name : JStr) : JStr :=
  if dir = js "." then name
  else if jsEndsWith dir (js "/") then dir ++ name
  else dir ++ js "/" ++ name

/-- JavaScript `s.replace(pat, repl)` with a *string* pattern: scan
left to right and replace only the first occurrence; the empty pattern
matches at position 0 (so it always matches, as in JavaScript). -/
def jsReplaceFirst (s pat repl : JStr) : JStr :=
  match s with
  | [] => if pat.isPrefixOf ([] : JStr) then repl else []
  | c :: t =>
    if pat.isPrefixOf (c :: t) then repl ++ (c :: t).drop pat.length
    else c :: jsReplaceFirst t pat repl

/-- `rel.replace(/\.liquid(\.html)?$/i, ".html")` from `renderPage`:
the regex is anchored at the end of the string, so it rewrites a
case-insensitive `".liquid.html"` or `".liquid"` suffix to `".html"`
and leaves every other string unchanged. -/
def replaceLiquidSuffix (rel : JStr) : JStr :=
  if jsEndsWithCI rel (js ".liquid.html") then dropRightN rel 12 ++ js ".html"
  else if jsEndsWithCI rel (js ".liquid") then dropRightN rel 7 ++ js ".html"
  else rel

/-- The output-path computation of `renderPage`
(`src/packages/basecampjs/src/config.ts` page pipeline):
`rel.replace(/\.liquid(\.html)?$/i, ".html").replace(ext, ".html")`
where `ext = getExt(filePath)`; `extname` depends only on the final
component, so `getExt rel` equals `getExt filePath`. -/
def outRelOf (rel : JStr) : JStr :=
  jsReplaceFirst (replaceLiquidSuffix rel) (getExt rel) (js ".html")

end PathUtils

section ReplaceLemmas

lemma dropRightN_cons {c : Char} {l : JStr} (h : l ≠ []) :
    dropRightN (c :: l) 1 = c :: dropRightN l 1 := by
  have hl : l.length = (l.length - 1) + 1 := by
    rcases l with _ | ⟨a, t⟩
    · exact absurd rfl h
    · simp
  simp only [dropRightN, List.length_cons, Nat.add_sub_cancel]
  rw [hl, List.take_succ_cons]
  simp

lemma prefix_dropRightN {t s : JStr} (h : t <+: s)
    (hlen : t.length ≤ s.length - 1) : t <+: dropRightN s 1 := by
  obtain ⟨u, rfl⟩ := h
  rw [dropRightN]
  rcases List.eq_nil_or_concat u with rfl | ⟨v, b, rfl⟩
  · rcases t with _ | ⟨x, xs⟩
    · simp
    · exfalso
      rw [List.append_nil] at hlen
      simp only [List.length_cons] at hlen
      omega
  · rw [List.concat_eq_append,
      show t ++ (v ++ [b]) = (t ++ v) ++ [b] by simp]
    have hlen2 : ((t ++ v) ++ [b]).length - 1 = (t ++ v).length := by simp
    rw [hlen2, List.take_left' rfl]
    exact ⟨v, rfl⟩

lemma jsReplaceFirst_final {t : JStr} (u : JStr) (r : JStr) (ht : t ≠ [])
    (hno : ¬ t <:+: dropRightN (u ++ t) 1) :
    jsReplaceFirst (u ++ t) t r = u ++ r := by
  induction u with
  | nil =>
    simp only [List.nil_append]
    rcases t with _ | ⟨a, t2⟩
    · exact absurd rfl ht
    · rw [jsReplaceFirst,
        if_pos (List.isPrefixOf_iff_prefix.mpr (List.prefix_refl _))]
      simp
  | cons c u2 ih =>
    have hnpre : t.isPrefixOf ((c :: u2) ++ t) = false := by
      rcases hp : t.isPrefixOf ((c :: u2) ++ t) with _ | _
      · rfl
      · exfalso
        apply hno
        apply List.IsPrefix.isInfix
        apply prefix_dropRightN (List.isPrefixOf_iff_prefix.mp hp)
        have : ((c :: u2) ++ t).length = u2.length + t.length + 1 := by
          simp only [List.length_append, List.length_cons]
          omega
        rw [this]
        omega
    rw [show ((c :: u2) ++ t : JStr) = c :: (u2 ++ t) by simp] at hnpre hno ⊢
    rw [jsReplaceFirst, if_neg (by simp [hnpre])]
    have hnt : (u2 ++ t : JStr) ≠ [] := by
      simp [ht]
    have hno2 : ¬ t <:+: dropRightN (u2 ++ t) 1 := by
      intro hcontra
      apply hno
      rw [dropRightN_cons hnt]
      have h2 := infix_append_left [c] hcontra
      simpa using h2
    rw [List.cons_append]
    exact congrArg (c :: ·) (ih hno2)

end ReplaceLemmas

/-- Claim C2 (amended).  The claim as frozen is false: the source uses
JavaScript `String.replace` with a string pattern, which replaces only
the *first* occurrence of the extension in the relative path (see
`c2_counterexample`).  Amended: for every relative path whose
(lowercased, nonempty) final extension occurs in the path exactly once
— namely as its case-sensitive final suffix — and that is not a
`.liquid`/`.liquid.html` template name, the computed output path is
the path with that final extension rewritten to `".html"` and every
other character unchanged. -/
theorem c2_output_path_amended (rel : JStr)
    (hne : getExt rel ≠ [])
    (hends : jsEndsWith rel (getExt rel) = true)
    (honce : ¬ (getExt rel <:+: dropRightN rel 1))
    (hlq : jsEndsWithCI rel (js ".liquid") = false)
    (hlqh : jsEndsWithCI rel (js ".liquid.html") = false) :
    outRelOf rel = dropRightN rel (getExt rel).length ++ js ".html" := by
  have hrl : replaceLiquidSuffix rel = rel := by
    rw [replaceLiquidSuffix, if_neg (by simp [hlqh]), if_neg (by simp [hlq])]
  rw [outRelOf, hrl]
  generalize he : getExt rel = e at hne hends honce ⊢
  obtain ⟨stem, hstem⟩ := jsEndsWith_iff.mp hends
  subst hstem
  rw [jsReplaceFirst_final stem (js ".html") hne honce, dropRightN_append]

/-- Counterexample to claim C2 as frozen: for the relative path
`"docs.md/intro.md"` the extension string `".md"` also occurs in the
directory name, and the code rewrites that first occurrence, mapping
the page to `"docs.html/intro.md"` instead of `"docs.md/intro.html"`. -/
theorem c2_counterexample :
    outRelOf (js "docs.md/intro.md") = js "docs.html/intro.md" ∧
    outRelOf (js "docs.md/intro.md") ≠ js "docs.md/intro.html" := by
  decide

/-- Witness for `c2_output_path_amended` at `rel = "a/b/page.njk"`. -/
theorem c2_witness :
    outRelOf (js "a/b/page.njk")
      = dropRightN (js "a/b/page.njk") (getExt (js "a/b/page.njk")).length
        ++ js ".html" :=
  c2_output_path_amended (js "a/b/page.njk") (by decide) (by decide)
    (by decide) (by decide) (by decide)

section Config

/-- The nested `compressionSettings` object of `CampsiteConfig`; each
property may be absent (`none`), as in a user-supplied partial object. -/
structure CompressionSettingsObj where
  quality : Option Nat
  formats : Option (List JStr)
  inputFormats : Option (List JStr)
  preserveOriginal : Option Bool
deriving DecidableEq

/-- The nested `integrations` object of `CampsiteConfig`. -/
structure IntegrationsObj where
  nunjucks : Option Bool
  liquid : Option Bool
  mustache : Option Bool
  vue : Option Bool
  alpine : Option Bool
deriving DecidableEq

/-- A (possibly partial) `CampsiteConfig` object: each top-level
property may be absent.  The optional `hooks` field holds functions,
is absent from `defaultConfig`, and no claim concerns it, so it is not
modelled. -/
structure ConfigObj where
  siteName : Option JStr
  siteUrl : Option JStr
  srcDir : Option JStr
  outDir : Option JStr
  templateEngine : Option JStr
  frontmatter : Option Bool
  minifyCSS : Option Bool
  minifyHTML : Option Bool
  cacheBustAssets : Option Bool
  excludeFiles : Option (List JStr)
  compressPhotos : Option Bool
  compressionSettings : Option CompressionSettingsObj
  port : Option Nat
  integrations : Option IntegrationsObj
deriving DecidableEq

/-- `defaultConfig.compressionSettings` from `src/config.ts`. -/
def defaultCompressionSettings : CompressionSettingsObj where
  quality := some 80
  formats := some [js ".webp"]
  inputFormats := some [js ".jpg", js ".jpeg", js ".png"]
  preserveOriginal := some true

/-- `defaultConfig.integrations` from `src/config.ts`. -/
def defaultIntegrations : IntegrationsObj where
  nunjucks := some true
  liquid := some false
  mustache := some false
  vue := some false
  alpine := some false

/-- `defaultConfig` from `src/config.ts`. -/
def defaultConfig : ConfigObj where
  siteName := some (js "Campsite")
  siteUrl := some (js "https://example.com")
  srcDir := some (js "src")
  outDir := some (js "dist")
  templateEngine := some (js "nunjucks")
  frontmatter := some true
  minifyCSS := some false
  minifyHTML := some false
  cacheBustAssets := some false
  excludeFiles := some []
  compressPhotos := some false
  compressionSettings := some defaultCompressionSettings
  port := some 4173
  integrations := some defaultIntegrations

/-- Property selection in a spread `{ ...base, ...user }`: the user's
property wins when present; nested objects are replaced wholesale, not
merged. -/
def pick {α : Type} (u b : Option α) : Option α :=
  match u with
  | some v => some v
  | none => b

/-- The spread `{ ...defaultConfig, ...user }` in `loadConfig`. -/
def spreadMerge (base user : ConfigObj) : ConfigObj where
  siteName := pick user.siteName base.siteName
  siteUrl := pick user.siteUrl base.siteUrl
  srcDir := pick user.srcDir base.srcDir
  outDir := pick user.outDir base.outDir
  templateEngine := pick user.templateEngine base.templateEngine
  frontmatter := pick user.frontmatter base.frontmatter
  minifyCSS := pick user.minifyCSS base.minifyCSS
  minifyHTML := pick user.minifyHTML base.minifyHTML
  cacheBustAssets := pick user.cacheBustAssets base.cacheBustAssets
  excludeFiles := pick user.excludeFiles base.excludeFiles
  compressPhotos := pick user.compressPhotos base.compressPhotos
  compressionSettings := pick user.compressionSettings base.compressionSettings
  port := pick user.port base.port
  integrations := pick user.integrations base.integrations

/-- Outcome of resolving `campsite.config.js`: file absent, module
whose import failed (malformed), or a loaded override object. -/
inductive ConfigSource where
  | absent : ConfigSource
  | malformed : ConfigSource
  | loaded : ConfigObj → ConfigSource

/-- `loadConfig` from `src/config.ts`: defaults when the file is
absent or fails to import, else the top-level spread of the user
object over the defaults. -/
def loadConfig : ConfigSource → ConfigObj
  | .absent => defaultConfig
  | .malformed => defaultConfig
  | .loaded user => spreadMerge defaultConfig user

/-- Every field of a `compressionSettings` object is defined. -/
def csAllDefined (cs : CompressionSettingsObj) : Bool :=
  cs.quality.isSome && cs.formats.isSome && cs.inputFormats.isSome &&
    cs.preserveOriginal.isSome

/-- Every field of an `integrations` object is defined. -/
def intAllDefined (i : IntegrationsObj) : Bool :=
  i.nunjucks.isSome && i.liquid.isSome && i.mustache.isSome &&
    i.vue.isSome && i.alpine.isSome

/-- Every top-level field of a config object is defined. -/
def topAllDefined (c : ConfigObj) : Bool :=
  c.siteName.isSome && c.siteUrl.isSome && c.srcDir.isSome &&
    c.outDir.isSome && c.templateEngine.isSome && c.frontmatter.isSome &&
    c.minifyCSS.isSome && c.minifyHTML.isSome && c.cacheBustAssets.isSome &&
    c.excludeFiles.isSome && c.compressPhotos.isSome &&
    c.compressionSettings.isSome && c.port.isSome && c.integrations.isSome

/-- Every nested field of `compressionSettings` and `integrations` is
defined. -/
def nestedAllDefined (c : ConfigObj) : Bool :=
  (match c.compressionSettings with
    | none => false
    | some cs => csAllDefined cs) &&
  (match c.integrations with
    | none => false
    | some i => intAllDefined i)

/-- A user override with every property absent. -/
def emptyOverride : ConfigObj where
  siteName := none
  siteUrl := none
  srcDir := none
  outDir := none
  templateEngine := none
  frontmatter := none
  minifyCSS := none
  minifyHTML := none
  cacheBustAssets := none
  excludeFiles := none
  compressPhotos := none
  compressionSettings := none
  port := none
  integrations := none

/-- A user override that sets only `compressionSettings.quality`,
leaving the other nested fields absent — the shape
`{ compressionSettings: { quality: 50 } }`. -/
def partialNestedOverride : ConfigObj :=
  { emptyOverride with
    compressionSettings :=
      some { quality := some 50, formats := none, inputFormats := none,
             preserveOriginal := none } }

lemma pick_isSome {α : Type} (u : Option α) (b : α) :
    (pick u (some b)).isSome = true := by
  cases u <;> rfl

/-- Claim C5 (amended).  The claim as frozen is false: the merge is a
*top-level* spread, so a user object that sets `compressionSettings`
with only some of its fields replaces the default object wholesale and
leaves the remaining nested fields undefined (see
`c5_counterexample`).  Amended: for every config source — absent file,
malformed module, or any override object — every *top-level* field of
the returned configuration is defined; the nested defaults survive
exactly when the override omits the nested object, and a supplied
nested object is taken wholesale. -/
theorem c5_config_totality_amended :
    (∀ src : ConfigSource, topAllDefined (loadConfig src) = true) ∧
    (∀ user : ConfigObj, user.compressionSettings = none →
      (loadConfig (ConfigSource.loaded user)).compressionSettings
        = some defaultCompressionSettings) ∧
    (∀ user : ConfigObj, user.integrations = none →
      (loadConfig (ConfigSource.loaded user)).integrations
        = some defaultIntegrations) ∧
    (∀ user : ConfigObj, ∀ cs : CompressionSettingsObj,
      user.compressionSettings = some cs →
      (loadConfig (ConfigSource.loaded user)).compressionSettings = some cs) := by
  refine ⟨?_, ?_, ?_, ?_⟩
  · intro src
    cases src with
    | absent => rfl
    | malformed => rfl
    | loaded user =>
      simp only [loadConfig, spreadMerge, topAllDefined]
      simp [defaultConfig, pick_isSome]
  · intro user h
    simp [loadConfig, spreadMerge, h, pick, defaultConfig]
  · intro user h
    simp [loadConfig, spreadMerge, h, pick, defaultConfig]
  · intro user cs h
    simp [loadConfig, spreadMerge, h, pick]

/-- Counterexample to claim C5 as frozen: the override
`{ compressionSettings: { quality: 50 } }` yields a configuration
whose `compressionSettings.formats` (among others) is undefined. -/
theorem c5_counterexample :
    nestedAllDefined (loadConfig (ConfigSource.loaded partialNestedOverride))
        = false ∧
    (loadConfig (ConfigSource.loaded partialNestedOverride)).compressionSettings
      = some { quality := some 50, formats := none, inputFormats := none,
               preserveOriginal := none } := by
  constructor
  · rfl
  · rfl

/-- Witness for `c5_config_totality_amended` at the concrete sources
`absent` and the all-absent override. -/
theorem c5_witness :
    topAllDefined (loadConfig ConfigSource.absent) = true ∧
    (loadConfig (ConfigSource.loaded emptyOverride)).compressionSettings
      = some defaultCompressionSettings :=
  ⟨c5_config_totality_amended.1 ConfigSource.absent,
    c5_config_totality_amended.2.1 emptyOverride rfl⟩

end Config

section DataLoader

/-- A JSON value, as produced by `JSON.parse`. -/
inductive Json where
  | null : Json
  | bool : Bool → Json
  | num : Int → Json
  | str : JStr → Json
  | arr : List Json → Json
  | obj : List (JStr × Json) → Json

/-- JavaScript object property assignment `collections[name] = v`:
updates the existing property in place, else appends. -/
def setKey (m : List (JStr × Json)) (k : JStr) (v : Json) :
    List (JStr × Json) :=
  match m with
  | [] => [(k, v)]
  | (k2, v2) :: rest =>
    if k2 = k then (k2, v) :: rest else (k2, v2) :: setKey rest k v

/-- Property lookup on the JavaScript object model. -/
def getKey (m : List (JStr × Json)) (k : JStr) : Option Json :=
  match m with
  | [] => none
  | (k2, v) :: rest => if k2 = k then some v else getKey rest k

/-- One data directory as `loadData` sees it: `none` when `existsSync`
is false (skipped silently), else the `walkFiles` result as
(path, raw contents) pairs in traversal order. -/
abbrev DataDir := Option (List (JStr × JStr))

/-- The body of the inner `for` loop of `loadData`
(`src/build/data.ts`), parameterized by `JSON.parse`; a parse result
of `none` models the caught-and-logged exception. -/
def loadStep (parse : JStr → Option Json) (collections : List (JStr × Json))
    (file : JStr × JStr) : List (JStr × Json) :=
  if getExt file.1 ≠ js ".json" then collections
  else
    match parse file.2 with
    | some v => setKey collections (basenameSuffix file.1 (js ".json")) v
    | none => collections

/-- The body of the outer `for` loop of `loadData`: a missing
directory is skipped, an existing one is scanned file by file. -/
def loadDirStep (parse : JStr → Option Json)
    (collections : List (JStr × Json)) (dir : DataDir) :
    List (JStr × Json) :=
  match dir with
  | none => collections
  | some files => files.foldl (loadStep parse) collections

/-- `loadData` from `src/build/data.ts`. -/
def loadData (dirs : List DataDir) (parse : JStr → Option Json) :
    List (JStr × Json) :=
  dirs.foldl (loadDirStep parse) []

/-- The specification of one file's effect on the value observed at
key `k`: a successfully parsed `.json` file named `k` overwrites, any
other file falls through. -/
def lastStep (parse : JStr → Option Json) (k : JStr) (acc : Option Json)
    (file : JStr × JStr) : Option Json :=
  if getExt file.1 ≠ js ".json" then acc
  else if basenameSuffix file.1 (js ".json") = k then
    match parse file.2 with
    | some v => some v
    | none => acc
  else acc

/-- Directory-level step of the observable-value scan. -/
def lastDirStep (parse : JStr → Option Json) (k : JStr)
    (acc : Option Json) (dir : DataDir) : Option Json :=
  match dir with
  | none => acc
  | some files => files.foldl (lastStep parse k) acc

/-- The value of key `k` after the scan: the last successful parse of
a `.json` file whose base name is `k`, across existing directories in
order. -/
def lastDataValue (dirs : List DataDir) (parse : JStr → Option Json)
    (k : JStr) : Option Json :=
  dirs.foldl (lastDirStep parse k) none

lemma getKey_setKey (m : List (JStr × Json)) (k k2 : JStr) (v : Json) :
    getKey (setKey m k v) k2 = if k = k2 then some v else getKey m k2 := by
  induction m with
  | nil =>
    simp only [setKey, getKey]
  | cons a rest ih =>
    obtain ⟨ka, va⟩ := a
    simp only [setKey]
    by_cases h1 : ka = k
    · subst h1
      simp only [if_pos rfl, getKey]
      by_cases h2 : ka = k2 <;> simp [h2]
    · rw [if_neg h1]
      simp only [getKey, ih]
      by_cases h2 : ka = k2
      · subst h2
        simp only [if_pos rfl]
        have : ¬ k = ka := fun hc => h1 hc.symm
        simp [this]
      · simp [h2]

lemma lastStep_none_or (parse : JStr → Option Json) (k : JStr)
    (acc : Option Json) (f : JStr × JStr) :
    lastStep parse k acc f =
      match lastStep parse k none f with
      | some v => some v
      | none => acc := by
  unfold lastStep
  by_cases h1 : getExt f.1 ≠ js ".json"
  · simp [h1]
  · simp only [h1, if_false, ite_not]
    by_cases h2 : basenameSuffix f.1 (js ".json") = k
    · simp only [h2, if_pos rfl]
      cases parse f.2 <;> simp
    · simp [h2]

lemma getKey_loadStep (parse : JStr → Option Json)
    (m : List (JStr × Json)) (f : JStr × JStr) (k : JStr) :
    getKey (loadStep parse m f) k =
      match lastStep parse k none f with
      | some v => some v
      | none => getKey m k := by
  unfold loadStep lastStep
  by_cases h1 : getExt f.1 ≠ js ".json"
  · simp [h1]
  · simp only [h1, if_false, ite_not]
    cases hp : parse f.2 with
    | none => simp
    | some v =>
      simp only []
      rw [getKey_setKey]
      by_cases h2 : basenameSuffix f.1 (js ".json") = k
      · simp [h2]
      · simp [h2]

lemma lastFold_acc (parse : JStr → Option Json) (k : JStr)
    (files : List (JStr × JStr)) (acc : Option Json) :
    files.foldl (lastStep parse k) acc =
      match files.foldl (lastStep parse k) none with
      | some v => some v
      | none => acc := by
  induction files generalizing acc with
  | nil => rfl
  | cons f rest ih =>
    simp only [List.foldl_cons]
    rw [ih (lastStep parse k acc f), ih (lastStep parse k none f)]
    cases hx : rest.foldl (lastStep parse k) none
    · exact lastStep_none_or parse k acc f
    · rfl

lemma getKey_foldFiles (parse : JStr → Option Json)
    (files : List (JStr × JStr)) (m : List (JStr × Json)) (k : JStr) :
    getKey (files.foldl (loadStep parse) m) k =
      match files.foldl (lastStep parse k) none with
      | some v => some v
      | none => getKey m k := by
  induction files generalizing m with
  | nil => rfl
  | cons f rest ih =>
    simp only [List.foldl_cons]
    rw [ih (loadStep parse m f),
      lastFold_acc parse k rest (lastStep parse k none f), getKey_loadStep]
    cases hx : rest.foldl (lastStep parse k) none
    · rfl
    · rfl

lemma lastDirStep_none_or (parse : JStr → Option Json) (k : JStr)
    (acc : Option Json) (d : DataDir) :
    lastDirStep parse k acc d =
      match lastDirStep parse k none d with
      | some v => some v
      | none => acc := by
  cases d with
  | none => rfl
  | some files =>
    simp only [lastDirStep]
    exact lastFold_acc parse k files acc

lemma dirsLast_acc (parse : JStr → Option Json) (k : JStr)
    (dirs : List DataDir) (acc : Option Json) :
    dirs.foldl (lastDirStep parse k) acc =
      match dirs.foldl (lastDirStep parse k) none with
      | some v => some v
      | none => acc := by
  induction dirs generalizing acc with
  | nil => rfl
  | cons d rest ih =>
    simp only [List.foldl_cons]
    rw [ih (lastDirStep parse k acc d), ih (lastDirStep parse k none d)]
    cases hx : rest.foldl (lastDirStep parse k) none
    · exact lastDirStep_none_or parse k acc d
    · rfl

lemma getKey_loadDirs (parse : JStr → Option Json) (dirs : List DataDir)
    (m : List (JStr × Json)) (k : JStr) :
    getKey (dirs.foldl (loadDirStep parse) m) k =
      match dirs.foldl (lastDirStep parse k) none with
      | some v => some v
      | none => getKey m k := by
  induction dirs generalizing m with
  | nil => rfl
  | cons d rest ih =>
    simp only [List.foldl_cons]
    rw [ih (loadDirStep parse m d),
      dirsLast_acc parse k rest (lastDirStep parse k none d)]
    have hd : getKey (loadDirStep parse m d) k =
        match lastDirStep parse k none d with
        | some v => some v
        | none => getKey m k := by
      cases d with
      | none => rfl
      | some files =>
        simp only [loadDirStep, lastDirStep]
        exact getKey_foldFiles parse files m k
    cases hx : rest.foldl (lastDirStep parse k) none
    · rw [hd]
    · rfl

lemma loadStep_skip (parse : JStr → Option Json)
    (m : List (JStr × Json)) (f : JStr × JStr) (h : parse f.2 = none) :
    loadStep parse m f = m := by
  unfold loadStep
  by_cases h1 : getExt f.1 ≠ js ".json"
  · simp [h1]
  · simp [h1, h]

/-- Claim C7: `loadData` returns, for every collection key, the value
of the last successfully parsed `.json` file with that base name
across the listed directories in order (so a later directory overrides
an earlier one on key collision); removing a file whose parse fails
does not change the result at all (fault isolation), and in the
two-directory collision scenario the later directory's value is the
one returned. -/
theorem c7_data_loader :
    (∀ (dirs : List DataDir) (parse : JStr → Option Json) (k : JStr),
      getKey (loadData dirs parse) k = lastDataValue dirs parse k) ∧
    (∀ (dirs1 dirs2 : List DataDir) (files1 files2 : List (JStr × JStr))
        (f : JStr × JStr) (parse : JStr → Option Json),
      parse f.2 = none →
      loadData (dirs1 ++ some (files1 ++ f :: files2) :: dirs2) parse
        = loadData (dirs1 ++ some (files1 ++ files2) :: dirs2) parse) ∧
    (∀ (p1 c1 p2 c2 k : JStr) (v1 v2 : Json) (parse : JStr → Option Json),
      getExt p1 = js ".json" → getExt p2 = js ".json" →
      basenameSuffix p1 (js ".json") = k →
      basenameSuffix p2 (js ".json") = k →
      parse c1 = some v1 → parse c2 = some v2 →
      getKey (loadData [some [(p1, c1)], some [(p2, c2)]] parse) k
        = some v2) := by
  refine ⟨?_, ?_, ?_⟩
  · intro dirs parse k
    rw [loadData, lastDataValue, getKey_loadDirs]
    cases hx : dirs.foldl (lastDirStep parse k) none <;> rfl
  · intro dirs1 dirs2 files1 files2 f parse h
    rw [loadData, loadData, List.foldl_append, List.foldl_append,
      List.foldl_cons, List.foldl_cons]
    congr 1
    simp only [loadDirStep, List.foldl_append, List.foldl_cons,
      loadStep_skip parse _ f h]
  · intro p1 c1 p2 c2 k v1 v2 parse h1 h2 h3 h4 h5 h6
    simp only [loadData, List.foldl_cons, List.foldl_nil, loadDirStep,
      loadStep, h1, h2, h3, h4, h5, h6]
    simp [setKey, getKey]

/-- Witness for `c7_data_loader` (third conjunct) at two concrete
`items.json` files in successive data directories. -/
theorem c7_witness :
    getKey (loadData
        [some [(js "items.json", js "1")], some [(js "items.json", js "2")]]
        (fun s => if s = js "1" then some (Json.num 1)
          else if s = js "2" then some (Json.num 2) else none))
        (js "items")
      = some (Json.num 2) :=
  c7_data_loader.2.2 (js "items.json") (js "1") (js "items.json") (js "2")
    (js "items") (Json.num 1) (Json.num 2) _
    (by decide) (by decide) (by decide) (by decide) rfl rfl

end DataLoader

section Exclusion

/-- The matcher of the regex `'^' + pattern.replace(/\*/g, '.*')
.replace(/\?/g, '.') + '$'` built by `shouldExcludeFile` for patterns
containing `*`: `*` matches any sequence, and both `?` and a literal
`.` (left unescaped by the source) match any single character; other
characters match themselves.  (Patterns containing further regex
metacharacters are not exercised by the pipeline.) -/
def globMatch : JStr → JStr → Bool
  | [], s => s.isEmpty
  | '*' :: pt, s => (List.range (s.length + 1)).any fun i => globMatch pt (s.drop i)
  | _ :: _, [] => false
  | p :: pt, c :: st => (p = '?' || p = '.' || p = c) && globMatch pt st

/-- `shouldExcludeFile` from `src/utils/fs.ts`. -/
def shouldExcludeFile (filePath : JStr)
    (excludePatterns : Option (List JStr)) : Bool :=
  match excludePatterns with
  | none => false
  | some pats =>
    if pats.length = 0 then false
    else
      let fileName := jsToLower (basenameJ filePath)
      let ext := getExt filePath
      pats.any fun pat =>
        let normalized := jsToLower pat
        if jsStartsWith normalized (js ".") then ext == normalized
        else if jsStartsWith normalized (js "*.") then ext == normalized.drop 1
        else if fileName == normalized then true
        else if normalized.contains '*' then globMatch normalized fileName
        else false

/-- `copyPublic` from `src/utils/fs.ts`, as the list of copied
output-relative paths: nothing when the source directory is missing,
else every walked file whose path is not excluded. -/
def copyPublic (publicDirPresent : Bool) (files : List JStr)
    (excludePatterns : List JStr) : List JStr :=
  if !publicDirPresent then []
  else files.filter (fun f => !shouldExcludeFile f (some excludePatterns))

end Exclusion

/-- Claim C8 (amended).  The claim as frozen is false: a pattern that
contains `?` but no `*` is never treated as a wildcard — the code
enters the regex branch only when the pattern contains `*` — so
`"file?.txt"` does not exclude `file1.txt` (see `c8_counterexample`).
Amended: `'*.ext'` patterns exclude exactly the files with that
(lowercased) extension and `copyPublic` omits exactly those files; a
pattern without `*` (even one containing `?`) participates only
through the extension and exact-lowercased-filename forms. -/
theorem c8_exclusion_amended :
    (∀ f : JStr,
      shouldExcludeFile f (some [js "*.pdf"]) = (getExt f == js ".pdf")) ∧
    (∀ (present : Bool) (files : List JStr) (f : JStr),
      f ∈ copyPublic present files [js "*.pdf"] ↔
        present = true ∧ f ∈ files ∧ ¬ getExt f = js ".pdf") ∧
    (∀ (f p : JStr),
      (jsToLower p).contains '*' = false →
      jsStartsWith (jsToLower p) (js ".") = false →
      jsStartsWith (jsToLower p) (js "*.") = false →
      shouldExcludeFile f (some [p])
        = (jsToLower (basenameJ f) == jsToLower p)) := by
  have h1 : ∀ f : JStr,
      shouldExcludeFile f (some [js "*.pdf"]) = (getExt f == js ".pdf") := by
    intro f
    have hr : shouldExcludeFile f (some [js "*.pdf"])
        = ((getExt f == js ".pdf") || false) := rfl
    rw [hr, Bool.or_false]
  refine ⟨h1, ?_, ?_⟩
  · intro present files f
    cases present with
    | false => simp [copyPublic]
    | true =>
      simp only [copyPublic, Bool.not_true, Bool.false_eq_true, if_false,
        List.mem_filter, h1]
      simp
  · intro f p hstar hdot hstar2
    simp only [shouldExcludeFile, List.length_cons, List.length_nil,
      List.any_cons, List.any_nil, Bool.or_false]
    rw [if_neg (by simp)]
    rw [if_neg (by simp [hdot]), if_neg (by simp [hstar2])]
    have hstar3 : ¬ ('*' ∈ jsToLower p) := by simpa using hstar
    rcases hname : (jsToLower (basenameJ f) == jsToLower p) with _ | _
    · rw [if_neg (by simp [hname]), if_neg (by simp [hstar3])]
    · rw [if_pos (by simp [hname])]

/-- Counterexample to claim C8 as frozen: the pattern `"file?.txt"`
contains a `?` wildcard and matches the filename `file1.txt` under the
wildcard semantics (`globMatch`), yet `shouldExcludeFile` returns
`false` because the wildcard branch requires a `*`. -/
theorem c8_counterexample :
    shouldExcludeFile (js "file1.txt") (some [js "file?.txt"]) = false ∧
    globMatch (js "file?.txt") (js "file1.txt") = true := by
  constructor
  · rfl
  · decide

/-- Witness for `c8_exclusion_amended` (third conjunct) at the
concrete file `notes.txt` and pattern `file?.txt`. -/
theorem c8_witness :
    shouldExcludeFile (js "notes.txt") (some [js "file?.txt"])
      = (jsToLower (basenameJ (js "notes.txt")) == jsToLower (js "file?.txt")) :=
  c8_exclusion_amended.2.2 (js "notes.txt") (js "file?.txt")
    (by decide) (by decide) (by decide)

section DevLoop

/-- State of the dev-mode rebuild loop (`src/dev/watcher.ts`): the
`building` and `pending` flags of `dev`, plus an explicit count of
builds currently in flight (awaited `build(...)` calls that have
started and not yet reached the `finally` block). -/
structure DevState where
  building : Bool
  pending : Bool
  inflight : Nat
deriving DecidableEq

/-- A `runBuild()` invocation (initial call or watcher event): if a
build is running it only sets the `pending` flag, otherwise it sets
`building` and starts one build. -/
def trigger (s : DevState) : DevState :=
  if s.building then { s with pending := true }
  else { building := true, pending := s.pending, inflight := s.inflight + 1 }

/-- Completion of the in-flight build: the `finally` block clears
`building`, and — synchronously, in the same JavaScript turn — when
`pending` is set it clears the flag and re-enters `runBuild()`, which
starts exactly one fresh build. -/
def complete (s : DevState) : DevState :=
  if s.pending then { building := true, pending := false, inflight := s.inflight - 1 + 1 }
  else { building := false, pending := false, inflight := s.inflight - 1 }

/-- The states reachable from the initial state (no build running, no
trigger pending) by watcher events and build completions; `complete`
steps are only possible while a build is in flight. -/
inductive Reachable : DevState → Prop where
  | init : Reachable ⟨false, false, 0⟩
  | trig {s : DevState} : Reachable s → Reachable (trigger s)
  | done {s : DevState} : Reachable s → s.building = true → Reachable (complete s)

/-- Claim C9: in every reachable state of the dev loop at most one
build is in flight — `inflight` is `1` when `building` and `0`
otherwise, and `pending` is only ever set while a build runs — and
completing a build with the `pending` flag set starts exactly one
fresh build and clears the flag. -/
theorem c9_rebuild_coalescing :
    (∀ s : DevState, Reachable s →
      s.inflight = (if s.building then 1 else 0) ∧
      (s.pending = true → s.building = true)) ∧
    (∀ s : DevState, Reachable s → s.building = true → s.pending = true →
      complete s = { building := true, pending := false, inflight := 1 }) := by
  have hinv : ∀ s : DevState, Reachable s →
      s.inflight = (if s.building then 1 else 0) ∧
      (s.pending = true → s.building = true) := by
    intro s hs
    induction hs with
    | init => exact ⟨rfl, fun h => Bool.noConfusion h⟩
    | trig hr ih =>
      rename_i s2
      by_cases hb : s2.building = true
      · have ht : trigger s2 = { s2 with pending := true } := by
          unfold trigger
          rw [if_pos hb]
        rw [ht]
        exact ⟨by simpa using ih.1, fun _ => hb⟩
      · have ht : trigger s2 = ⟨true, s2.pending, s2.inflight + 1⟩ := by
          unfold trigger
          rw [if_neg hb]
        rw [ht]
        have h1 := ih.1
        rw [if_neg hb] at h1
        exact ⟨by simp [h1], fun _ => rfl⟩
    | done hr hb ih =>
      rename_i s2
      have h1 := ih.1
      rw [if_pos hb] at h1
      by_cases hp : s2.pending = true
      · have hc : complete s2 = ⟨true, false, s2.inflight - 1 + 1⟩ := by
          unfold complete
          rw [if_pos hp]
        rw [hc]
        exact ⟨by simp [h1], fun h => rfl⟩
      · have hc : complete s2 = ⟨false, false, s2.inflight - 1⟩ := by
          unfold complete
          rw [if_neg hp]
        rw [hc]
        exact ⟨by simp [h1], fun h => Bool.noConfusion h⟩
  refine ⟨hinv, ?_⟩
  intro s hs hb hp
  have h1 := (hinv s hs).1
  rw [if_pos hb] at h1
  unfold complete
  rw [if_pos hp, h1]

/-- Witness for `c9_rebuild_coalescing` at the reachable state reached
by: trigger, trigger (coalesced while building), then completion. -/
theorem c9_witness :
    ((trigger (trigger ⟨false, false, 0⟩)).inflight
        = (if (trigger (trigger ⟨false, false, 0⟩)).building then 1 else 0)) ∧
    complete (trigger (trigger ⟨false, false, 0⟩))
      = { building := true, pending := false, inflight := 1 } :=
  ⟨(c9_rebuild_coalescing.1 _ (Reachable.trig (Reachable.trig Reachable.init))).1,
    c9_rebuild_coalescing.2 _ (Reachable.trig (Reachable.trig Reachable.init))
      (by decide) (by decide)⟩

end DevLoop

section Layouts

/-- `renderWithLayout` from `src/render/engines.ts`.  The pluggable
engines are parameters: `njkRender`/`liquidRender` model
`env.render`/`liquidEnv.renderFile` on the named layout (an
`Except.error` models the exception these engines throw, e.g. for a
template that does not resolve on the search paths);
`mustacheRender` models `Mustache.render` applied to the layout file's
contents (the template context does not affect which branch runs and
is not modelled).  `fileExists` models `existsSync`. -/
def renderWithLayout (layoutName : Option JStr) (html : JStr)
    (njkRender liquidRender : JStr → Except JStr JStr)
    (mustacheRender : JStr → JStr) (layoutsDir : JStr)
    (fileExists : JStr → Bool) : Except JStr JStr :=
  match layoutName with
  | none => Except.ok html
  | some ln =>
    if ln = [] then Except.ok html
    else
      let ext := getExt ln
      if ext = js ".njk" then njkRender ln
      else if ext = js ".liquid"
          || jsEndsWith (jsToLower ln) (js ".liquid.html") then
        liquidRender ln
      else if ext = js ".mustache" then
        if fileExists (joinJ layoutsDir ln) then
          Except.ok (mustacheRender ln)
        else Except.ok html
      else Except.ok html

/-- Claim C6 (amended).  The claim as frozen is false: for `.njk` and
`.liquid` layouts the function delegates to the engine without any
existence check or error handling, and nunjucks/liquidjs throw when
the template does not resolve, so an unresolvable `.njk` layout
produces an error rather than the unwrapped content (see
`c6_counterexample`).  Amended: an absent or empty layout name, an
unknown layout extension, and an unresolvable `.mustache` layout all
yield the unwrapped content; a `.njk` (resp. `.liquid`/`.liquid.html`)
layout yields whatever the engine returns, errors included. -/
theorem c6_layout_fallback_amended :
    (∀ (html layoutsDir ln : JStr)
        (njk liquid : JStr → Except JStr JStr) (mus : JStr → JStr)
        (fileExists : JStr → Bool),
      getExt ln ≠ js ".njk" →
      getExt ln ≠ js ".liquid" →
      jsEndsWith (jsToLower ln) (js ".liquid.html") = false →
      getExt ln ≠ js ".mustache" →
      renderWithLayout (some ln) html njk liquid mus layoutsDir fileExists
        = Except.ok html) ∧
    (∀ (html layoutsDir ln : JStr)
        (njk liquid : JStr → Except JStr JStr) (mus : JStr → JStr)
        (fileExists : JStr → Bool),
      getExt ln = js ".mustache" →
      jsEndsWith (jsToLower ln) (js ".liquid.html") = false →
      fileExists (joinJ layoutsDir ln) = false →
      renderWithLayout (some ln) html njk liquid mus layoutsDir fileExists
        = Except.ok html) ∧
    (∀ (html layoutsDir : JStr)
        (njk liquid : JStr → Except JStr JStr) (mus : JStr → JStr)
        (fileExists : JStr → Bool),
      renderWithLayout none html njk liquid mus layoutsDir fileExists
          = Except.ok html ∧
      renderWithLayout (some []) html njk liquid mus layoutsDir fileExists
          = Except.ok html) ∧
    (∀ (html layoutsDir ln : JStr)
        (njk liquid : JStr → Except JStr JStr) (mus : JStr → JStr)
        (fileExists : JStr → Bool),
      getExt ln = js ".njk" →
      renderWithLayout (some ln) html njk liquid mus layoutsDir fileExists
        = njk ln) := by
  refine ⟨?_, ?_, ?_, ?_⟩
  · intro html layoutsDir ln njk liquid mus fileExists h1 h2 h3 h4
    rcases ln with _ | ⟨c, t⟩
    · rfl
    · simp only [renderWithLayout]
      rw [if_neg (by simp), if_neg h1, if_neg (by simp [h2, h3]), if_neg h4]
  · intro html layoutsDir ln njk liquid mus fileExists h1 hliq h2
    have hne : ln ≠ [] := by
      intro hc
      rw [hc] at h1
      exact absurd h1 (by decide)
    simp only [renderWithLayout]
    rw [if_neg hne, if_neg (by rw [h1]; decide),
      if_neg (by rw [h1, hliq]; decide), if_pos h1, if_neg (by simp [h2])]
  · intro html layoutsDir njk liquid mus fileExists
    exact ⟨rfl, rfl⟩
  · intro html layoutsDir ln njk liquid mus fileExists h1
    have hne : ln ≠ [] := by
      intro hc
      rw [hc] at h1
      exact absurd h1 (by decide)
    simp only [renderWithLayout]
    rw [if_neg hne, if_pos h1]

/-- Counterexample to claim C6 as frozen: with the engine behavior
nunjucks documents for an unresolvable template (the `render` call
throws), a page naming the missing layout `main.njk` produces the
propagated engine error, not the unwrapped content. -/
theorem c6_counterexample :
    renderWithLayout (some (js "main.njk")) (js "<p>hi</p>")
        (fun _ => Except.error (js "template not found"))
        (fun _ => Except.error (js "template not found"))
        (fun _ => []) (js "layouts") (fun _ => false)
      = Except.error (js "template not found") ∧
    (Except.error (js "template not found") : Except JStr JStr)
      ≠ Except.ok (js "<p>hi</p>") := by
  constructor
  · rfl
  · intro h
    exact Except.noConfusion h

/-- Witness for `c6_layout_fallback_amended` at an unknown layout
extension and at a missing `.mustache` layout. -/
theorem c6_witness :
    renderWithLayout (some (js "main.xyz")) (js "<p>hi</p>")
        (fun n => Except.ok n) (fun n => Except.ok n) (fun _ => [])
        (js "layouts") (fun _ => false)
      = Except.ok (js "<p>hi</p>") ∧
    renderWithLayout (some (js "main.mustache")) (js "<p>hi</p>")
        (fun n => Except.ok n) (fun n => Except.ok n) (fun _ => [])
        (js "layouts") (fun _ => false)
      = Except.ok (js "<p>hi</p>") :=
  ⟨c6_layout_fallback_amended.1 (js "<p>hi</p>") (js "layouts") (js "main.xyz")
      _ _ _ _ (by decide) (by decide) (by decide) (by decide),
    c6_layout_fallback_amended.2.1 (js "<p>hi</p>") (js "layouts")
      (js "main.mustache") _ _ _ _ (by decide) (by decide) rfl⟩

end Layouts

section Sitemap

/-- `stats.mtime.toISOString().split("T")[0]`: the date component of
an ISO-8601 timestamp. -/
def isoDatePart (iso : JStr) : JStr := iso.takeWhile (· ≠ 'T')

/-- The per-file URL-path derivation of `generateSitemap`
(`src/build/assets.ts`). -/
def sitemapUrlPath (rel : JStr) : JStr :=
  let urlPath := rel.map (fun c => if c = '\\' then '/' else c)
  if urlPath = js "index.html" then []
  else if jsEndsWith urlPath (js "/index.html") then dropRightN urlPath 11
  else if jsEndsWith urlPath (js ".html") then dropRightN urlPath 5
  else urlPath

/-- `siteUrl.replace(/\/$/, "")`: strip one trailing slash. -/
def stripTrailingSlashOnce (siteUrl : JStr) : JStr :=
  if jsEndsWith siteUrl (js "/") then dropRightN siteUrl 1 else siteUrl

/-- The full `<loc>` of one output file. -/
def sitemapLoc (siteUrl rel : JStr) : JStr :=
  stripTrailingSlashOnce siteUrl ++ js "/" ++ sitemapUrlPath rel

/-- The `urls` array built by `generateSitemap`: the walk is scanned
in order, non-`.html` files are skipped (`continue`), and each
`.html` file contributes one `(loc, lastmod)` entry.  Files are
(outDir-relative path, ISO mtime) pairs. -/
def sitemapUrls (files : List (JStr × JStr)) (siteUrl : JStr) :
    List (JStr × JStr) :=
  files.foldl (fun urls f =>
    if getExt f.1 ≠ js ".html" then urls
    else urls ++ [(sitemapLoc siteUrl f.1, isoDatePart f.2)]) []

/-- The XML document returned by `generateSitemap`. -/
def sitemapXml (files : List (JStr × JStr)) (siteUrl : JStr) : JStr :=
  js "<?xml version=\"1.0\" encoding=\"UTF-8\"?>\n" ++
  js "<urlset xmlns=\"http://www.sitemaps.org/schemas/sitemap/0.9\">\n" ++
  (sitemapUrls files siteUrl).foldl (fun xml u =>
    xml ++ js "  <url>\n    <loc>" ++ u.1 ++ js "</loc>\n    <lastmod>"
      ++ u.2 ++ js "</lastmod>\n  </url>\n") [] ++
  js "</urlset>\n"

lemma jsEndsWith_append_right (a b t : JStr) :
    jsEndsWith (a ++ t) (b ++ t) = jsEndsWith a b := by
  simp only [jsEndsWith, List.isSuffixOf, List.reverse_append]
  rcases h : List.isPrefixOf b.reverse a.reverse with _ | _
  · rcases h2 : List.isPrefixOf (t.reverse ++ b.reverse)
        (t.reverse ++ a.reverse) with _ | _
    · rfl
    · exfalso
      have := List.isPrefixOf_iff_prefix.mp h2
      rw [List.prefix_append_right_inj] at this
      rw [List.isPrefixOf_iff_prefix.mpr this] at h
      exact Bool.noConfusion h
  · rw [List.isPrefixOf_iff_prefix] at h ⊢
    rwa [List.prefix_append_right_inj]

lemma sitemapUrls_acc (files : List (JStr × JStr)) (siteUrl : JStr)
    (acc : List (JStr × JStr)) :
    files.foldl (fun urls f =>
        if getExt f.1 ≠ js ".html" then urls
        else urls ++ [(sitemapLoc siteUrl f.1, isoDatePart f.2)]) acc
      = acc ++ (files.filter (fun f => getExt f.1 == js ".html")).map
          (fun f => (sitemapLoc siteUrl f.1, isoDatePart f.2)) := by
  induction files generalizing acc with
  | nil => simp
  | cons f rest ih =>
    simp only [List.foldl_cons, List.filter_cons]
    by_cases h : getExt f.1 = js ".html"
    · rw [if_neg (by simp [h]), if_pos (by simp [h])]
      rw [ih]
      simp
    · rw [if_pos (by simp [h]), if_neg (by simp [h])]
      exact ih acc

end Sitemap

section SitemapTheorems

lemma sitemapUrlPath_root : sitemapUrlPath (js "index.html") = [] := rfl

lemma sitemapUrlPath_index (d : JStr) (hd : ('\\' : Char) ∉ d) :
    sitemapUrlPath (d ++ js "/index.html") = d := by
  have hmap : (d ++ js "/index.html").map
      (fun c => if c = '\\' then '/' else c) = d ++ js "/index.html" := by
    apply map_bs_eq_self
    intro hmem
    rcases List.mem_append.mp hmem with hc | hc
    · exact hd hc
    · exact absurd hc (by decide)
  have hne : (d ++ js "/index.html" : JStr) ≠ js "index.html" := by
    intro hc
    have hlen := congrArg List.length hc
    rw [List.length_append, show (js "/index.html").length = 11 from rfl,
      show (js "index.html").length = 10 from rfl] at hlen
    omega
  simp only [sitemapUrlPath]
  rw [hmap, if_neg hne, if_pos (jsEndsWith_append d (js "/index.html"))]
  exact dropRightN_append d (js "/index.html")

lemma sitemapUrlPath_plain (p : JStr) (hd : ('\\' : Char) ∉ p)
    (hp : p ≠ js "index") (hpe : jsEndsWith p (js "/index") = false) :
    sitemapUrlPath (p ++ js ".html") = p := by
  have hmap : (p ++ js ".html").map
      (fun c => if c = '\\' then '/' else c) = p ++ js ".html" := by
    apply map_bs_eq_self
    intro hmem
    rcases List.mem_append.mp hmem with hc | hc
    · exact hd hc
    · exact absurd hc (by decide)
  have hne : (p ++ js ".html" : JStr) ≠ js "index.html" := by
    intro hc
    apply hp
    have h5 : dropRightN (p ++ js ".html") 5
        = dropRightN (js "index.html") 5 := by rw [hc]
    have h6 := dropRightN_append p (js ".html")
    rw [show (js ".html").length = 5 from rfl] at h6
    rw [h6] at h5
    rw [h5]
    rfl
  have hne2 : jsEndsWith (p ++ js ".html") (js "/index.html") = false := by
    rw [show (js "/index.html" : JStr) = js "/index" ++ js ".html" from rfl,
      jsEndsWith_append_right]
    exact hpe
  simp only [sitemapUrlPath]
  rw [hmap, if_neg hne, if_neg (by simp [hne2]),
    if_pos (jsEndsWith_append p (js ".html"))]
  exact dropRightN_append p (js ".html")

lemma no_index_infix_slash_cons {d : JStr} (h : ¬ js "index.html" <:+: d) :
    ¬ js "index.html" <:+: ('/' :: d) := by
  intro hc
  rcases List.infix_cons_iff.mp hc with hpre | hinf
  · obtain ⟨t, ht⟩ := hpre
    have := congrArg List.head? ht
    simp only [show (js "index.html" : JStr) = 'i' :: js "ndex.html" from rfl,
      List.cons_append, List.head?_cons] at this
    exact absurd (Option.some.inj this) (by decide)
  · exact h hinf

/-- Claim C4 (amended).  The claim as frozen is false on two points
(see `c4_counterexample`): a file such as `index.html.html` maps to a
`<loc>` that does contain the literal text `index.html`, and a file
with an uppercase `.HTML` extension is enumerated (extensions are
compared lowercased) but its suffix is not stripped (the suffix test
is case-sensitive).  Amended: the `<url>` entries are exactly one per
walked file whose lowercased extension is `.html`, in walk order,
carrying the date component of the file's mtime; for a site URL
without trailing slash, the root `index.html` maps to `siteUrl + "/"`,
a nested `d/index.html` maps to `siteUrl + "/" + d`, and any other
path `p + ".html"` (lowercase suffix, final component not `index`)
maps to `siteUrl + "/" + p`; and the URL path contains no
`"index.html"` provided the path's remainder after the stripped
suffix contains none. -/
theorem c4_sitemap_amended :
    (∀ (files : List (JStr × JStr)) (siteUrl : JStr),
      sitemapUrls files siteUrl
        = (files.filter (fun f => getExt f.1 == js ".html")).map
            (fun f => (sitemapLoc siteUrl f.1, isoDatePart f.2))) ∧
    (∀ siteUrl : JStr, jsEndsWith siteUrl (js "/") = false →
      sitemapLoc siteUrl (js "index.html") = siteUrl ++ js "/") ∧
    (∀ (siteUrl d : JStr), jsEndsWith siteUrl (js "/") = false →
      ('\\' : Char) ∉ d →
      sitemapLoc siteUrl (d ++ js "/index.html")
        = siteUrl ++ js "/" ++ d) ∧
    (∀ (siteUrl p : JStr), jsEndsWith siteUrl (js "/") = false →
      ('\\' : Char) ∉ p → p ≠ js "index" →
      jsEndsWith p (js "/index") = false →
      sitemapLoc siteUrl (p ++ js ".html") = siteUrl ++ js "/" ++ p) ∧
    (∀ d : JStr, ('\\' : Char) ∉ d → ¬ js "index.html" <:+: d →
      ¬ js "index.html" <:+: (js "/" ++ sitemapUrlPath (d ++ js "/index.html"))) ∧
    (∀ p : JStr, ('\\' : Char) ∉ p → ¬ js "index.html" <:+: p →
      p ≠ js "index" → jsEndsWith p (js "/index") = false →
      ¬ js "index.html" <:+: (js "/" ++ sitemapUrlPath (p ++ js ".html"))) := by
  refine ⟨?_, ?_, ?_, ?_, ?_, ?_⟩
  · intro files siteUrl
    rw [sitemapUrls, sitemapUrls_acc, List.nil_append]
  · intro siteUrl h
    have h1 : stripTrailingSlashOnce siteUrl = siteUrl := by
      rw [stripTrailingSlashOnce, if_neg (by simp [h])]
    rw [sitemapLoc, h1, sitemapUrlPath_root]
    simp
  · intro siteUrl d h hd
    have h1 : stripTrailingSlashOnce siteUrl = siteUrl := by
      rw [stripTrailingSlashOnce, if_neg (by simp [h])]
    rw [sitemapLoc, h1, sitemapUrlPath_index d hd, List.append_assoc]
  · intro siteUrl p h hd hp hpe
    have h1 : stripTrailingSlashOnce siteUrl = siteUrl := by
      rw [stripTrailingSlashOnce, if_neg (by simp [h])]
    rw [sitemapLoc, h1, sitemapUrlPath_plain p hd hp hpe, List.append_assoc]
  · intro d hd hno
    rw [sitemapUrlPath_index d hd, show (js "/" ++ d : JStr) = '/' :: d by rfl]
    exact no_index_infix_slash_cons hno
  · intro p hd hno hp hpe
    rw [sitemapUrlPath_plain p hd hp hpe,
      show (js "/" ++ p : JStr) = '/' :: p by rfl]
    exact no_index_infix_slash_cons hno

/-- Counterexample to claim C4 as frozen: the output file
`index.html.html` is enumerated and its `<loc>` contains the literal
text `index.html`; and the file `ABOUT.HTML` is enumerated (its
lowercased extension is `.html`) but keeps its suffix in the URL. -/
theorem c4_counterexample :
    sitemapUrls [(js "index.html.html", js "2026-01-02T03:04:05.000Z")]
        (js "https://example.com")
      = [(js "https://example.com/index.html", js "2026-01-02")] ∧
    js "index.html" <:+: js "https://example.com/index.html" ∧
    getExt (js "ABOUT.HTML") = js ".html" ∧
    sitemapUrlPath (js "ABOUT.HTML") = js "ABOUT.HTML" := by
  refine ⟨by decide, by decide, by decide, by decide⟩

/-- Witness for `c4_sitemap_amended` at the concrete site URL
`https://example.com` and directory `blog`. -/
theorem c4_witness :
    sitemapLoc (js "https://example.com") (js "index.html")
      = js "https://example.com" ++ js "/" ∧
    sitemapLoc (js "https://example.com") (js "blog" ++ js "/index.html")
      = js "https://example.com" ++ js "/" ++ js "blog" :=
  ⟨c4_sitemap_amended.2.1 (js "https://example.com") (by decide),
    c4_sitemap_amended.2.2.1 (js "https://example.com") (js "blog")
      (by decide) (by decide)⟩

end SitemapTheorems

section Sha256

/-- Truncate to 32 bits. -/
def w32 (n : Nat) : Nat := n % 4294967296

/-- Rotate a 32-bit word right by `r`. -/
def rotr32 (r x : Nat) : Nat := x / 2 ^ r + x % 2 ^ r * 2 ^ (32 - r)

/-- The SHA-256 round constants. -/
def shaK : List Nat :=
  [1116352408, 1899447441, 3049323471, 3921009573, 961987163,
   1508970993, 2453635748, 2870763221, 3624381080, 310598401,
   607225278, 1426881987, 1925078388, 2162078206, 2614888103,
   3248222580, 3835390401, 4022224774, 264347078, 604807628,
   770255983, 1249150122, 1555081692, 1996064986, 2554220882,
   2821834349, 2952996808, 3210313671, 3336571891, 3584528711,
   113926993, 338241895, 666307205, 773529912, 1294757372,
   1396182291, 1695183700, 1986661051, 2177026350, 2456956037,
   2730485921, 2820302411, 3259730800, 3345764771, 3516065817,
   3600352804, 4094571909, 275423344, 430227734, 506948616,
   659060556, 883997877, 958139571, 1322822218, 1537002063,
   1747873779, 1955562222, 2024104815, 2227730452, 2361852424,
   2428436474, 2756734187, 3204031479, 3329325298]

/-- The SHA-256 initial hash value. -/
def shaH0 : List Nat :=
  [1779033703, 3144134277, 1013904242, 2773480762,
   1359893119, 2600822924, 528734635, 1541459225]

/-- `n` bytes of `v`, big-endian. -/
def bytesBE (n v : Nat) : List Nat :=
  (List.range n).map fun i => v / 2 ^ (8 * (n - 1 - i)) % 256

/-- SHA-256 message padding: `0x80`, zeros to 56 mod 64, then the
bit length in 8 big-endian bytes. -/
def sha256pad (m : List Nat) : List Nat :=
  let padLen := (64 - (m.length + 9) % 64) % 64
  m ++ [0x80] ++ List.replicate padLen 0 ++ bytesBE 8 (m.length * 8)

/-- Group bytes into 32-bit big-endian words. -/
def toWords : List Nat → List Nat
  | a :: b :: c :: d :: rest => (((a * 256 + b) * 256 + c) * 256 + d) :: toWords rest
  | _ => []

/-- σ₀ of the message schedule. -/
def ssig0 (x : Nat) : Nat := rotr32 7 x ^^^ rotr32 18 x ^^^ x / 2 ^ 3

/-- σ₁ of the message schedule. -/
def ssig1 (x : Nat) : Nat := rotr32 17 x ^^^ rotr32 19 x ^^^ x / 2 ^ 10

/-- Σ₀ of the compression function. -/
def bsig0 (x : Nat) : Nat := rotr32 2 x ^^^ rotr32 13 x ^^^ rotr32 22 x

/-- Σ₁ of the compression function. -/
def bsig1 (x : Nat) : Nat := rotr32 6 x ^^^ rotr32 11 x ^^^ rotr32 25 x

/-- Extend 16 words of one block to the 64-word schedule. -/
def schedule (w16 : List Nat) : List Nat :=
  (List.range 48).foldl (fun w _ =>
    let n := w.length
    w ++ [w32 (w.getD (n - 16) 0 + ssig0 (w.getD (n - 15) 0)
      + w.getD (n - 7) 0 + ssig1 (w.getD (n - 2) 0))]) w16

/-- One SHA-256 compression round over the 8-word state. -/
def shaRound (w : List Nat) (st : List Nat) (i : Nat) : List Nat :=
  match st with
  | [a, b, c, d, e, f, g, h] =>
    let ch := (e &&& f) ^^^ ((4294967295 - e) &&& g)
    let maj := (a &&& b) ^^^ (a &&& c) ^^^ (b &&& c)
    let t1 := w32 (h + bsig1 e + ch + shaK.getD i 0 + w.getD i 0)
    let t2 := w32 (bsig0 a + maj)
    [w32 (t1 + t2), a, b, c, w32 (d + t1), e, f, g]
  | _ => st

/-- Compress one 64-word schedule into the running hash. -/
def compress (h : List Nat) (w : List Nat) : List Nat :=
  let st := (List.range 64).foldl (shaRound w) h
  (h.zip st).map fun p => w32 (p.1 + p.2)

/-- Process the word stream block by block (fuel-bounded so the
function evaluates by kernel reduction). -/
def processBlocks : Nat → List Nat → List Nat → List Nat
  | 0, h, _ => h
  | fuel + 1, h, ws =>
    if ws = [] then h
    else processBlocks fuel (compress h (schedule (ws.take 16))) (ws.drop 16)

/-- SHA-256 of a byte list, as 32 bytes. -/
def sha256 (m : List Nat) : List Nat :=
  let ws := toWords (sha256pad m)
  let h := processBlocks ws.length shaH0 ws
  h.foldr (fun x acc => bytesBE 4 x ++ acc) []

/-- One lowercase hexadecimal digit. -/
def toHexChar (n : Nat) : Char :=
  if n < 10 then Char.ofNat (48 + n) else Char.ofNat (87 + n)

/-- Two hexadecimal digits of one byte. -/
def byteToHex (b : Nat) : JStr := [toHexChar (b / 16), toHexChar (b % 16)]

/-- `createHash("sha256").update(bytes).digest("hex")`. -/
def sha256hex (m : List Nat) : JStr :=
  (sha256 m).foldr (fun b acc => byteToHex b ++ acc) []

/-- The UTF-8 encoding of a string, the byte stream Node hashes for a
file read without an encoding argument. -/
def utf8Bytes (s : JStr) : List Nat :=
  s.foldr (fun c acc =>
    (let n := c.toNat
     if n < 0x80 then [n]
     else if n < 0x800 then [0xc0 + n / 64, 0x80 + n % 64]
     else if n < 0x10000 then
       [0xe0 + n / 4096, 0x80 + n / 64 % 64, 0x80 + n % 64]
     else
       [0xf0 + n / 262144, 0x80 + n / 4096 % 64, 0x80 + n / 64 % 64,
        0x80 + n % 64]) ++ acc) []

/-- The 10-character hash prefix used for cache-busting:
`digest("hex").slice(0, 10)`. -/
def hashOf (content : List Nat) : JStr := (sha256hex content).take 10

end Sha256

section CacheBust

/-- Case-insensitive prefix test, as performed by an `/i` regex on its
literal parts. -/
def ciPrefix (pat s : JStr) : Bool :=
  (jsToLower pat).isPrefixOf (jsToLower s)

/-- Tail of the cache-busting regex at the current position:
`\s ATTR ["'] /? ORIG ["']` (the pattern
`(<link[^>]*?\shref=["'])/?ESC(["'])` after the lazy run, `ATTR` being
`href=` or `src=`, `ORIG` the escaped asset path — the escaping makes
the path match itself literally, here case-insensitively because of
the `i` flag).  Returns the length up to and including the opening
quote, the length of the rest of the match, and the closing quote.
The optional `/?` is greedy: the slash variant is preferred, falling
back per regex backtracking. -/
def tailMatch (attr orig : JStr) (t : JStr) : Option (Nat × Nat × Char) :=
  match t with
  | [] => none
  | w :: t1 =>
    if !isJsWs w then none
    else if !ciPrefix attr t1 then none
    else
      match t1.drop attr.length with
      | [] => none
      | q1 :: t3 =>
        if q1 ≠ '"' ∧ q1 ≠ '\'' then none
        else
          let withSlash : Option (Nat × Char) :=
            match t3 with
            | '/' :: t4 =>
              if ciPrefix orig t4 then
                match t4.drop orig.length with
                | q2 :: _ =>
                  if q2 = '"' ∨ q2 = '\'' then some (1 + orig.length + 1, q2)
                  else none
                | [] => none
              else none
            | _ => none
          let noSlash : Option (Nat × Char) :=
            if ciPrefix orig t3 then
              match t3.drop orig.length with
              | q2 :: _ =>
                if q2 = '"' ∨ q2 = '\'' then some (orig.length + 1, q2)
                else none
              | [] => none
            else none
          match withSlash with
          | some (post, q2) => some (1 + attr.length + 1, post, q2)
          | none =>
            match noSlash with
            | some (post, q2) => some (1 + attr.length + 1, post, q2)
            | none => none

/-- The lazy `[^>]*?` run: starting right after the tag literal, try
the tail at each position, expanding the run one non-`>` character at
a time (shortest match first, as a lazy quantifier backtracks). -/
def scanMid (attr orig : JStr) : JStr → Nat → Option (Nat × Nat × Char)
  | t, m =>
    match tailMatch attr orig t with
    | some (pre, post, q2) => some (m + pre, post, q2)
    | none =>
      match t with
      | [] => none
      | c :: t2 => if c = '>' then none else scanMid attr orig t2 (m + 1)

/-- Try the whole pattern at the current position: the tag literal
(case-insensitively), then the lazy run and tail.  Returns the length
of group 1 (through the opening quote), the remaining match length,
and the closing quote (group 2). -/
def tryMatchAt (tag attr orig : JStr) (s : JStr) : Option (Nat × Nat × Char) :=
  if ciPrefix tag s then
    match scanMid attr orig (s.drop tag.length) 0 with
    | some (g1rest, post, q2) => some (tag.length + g1rest, post, q2)
    | none => none
  else none

/-- Global regex replacement: scan left to right; each match is
replaced by `$1/HASHED$2` and scanning resumes after the match
(fuel-bounded by the string length; every match consumes at least one
character). -/
def scanReplace (tag attr orig hashed : JStr) : Nat → JStr → JStr
  | 0, s => s
  | fuel + 1, s =>
    match s with
    | [] => []
    | c :: rest =>
      match tryMatchAt tag attr orig s with
      | some (g1, post, q2) =>
        s.take g1 ++ js "/" ++ hashed ++ [q2]
          ++ scanReplace tag attr orig hashed fuel (s.drop (g1 + post))
      | none => c :: scanReplace tag attr orig hashed fuel rest

/-- The `<link ... href>` rewrite of `cacheBustAssets` for one CSS
asset-map entry. -/
def linkReplace (orig hashed html : JStr) : JStr :=
  scanReplace (js "<link") (js "href=") orig hashed html.length html

/-- The `<script ... src>` rewrite for one JS asset-map entry. -/
def scriptReplace (orig hashed html : JStr) : JStr :=
  scanReplace (js "<script") (js "src=") orig hashed html.length html

/-- An in-memory output tree: outDir-relative path with contents, in
`walkFiles` order.  `relative(outDir, ·)` is the identity on these
paths. -/
abbrev OutTree := List (JStr × JStr)

/-- `readFile`: the first entry at the path. -/
def lookupFile (tree : OutTree) (path : JStr) : Option JStr :=
  match tree with
  | [] => none
  | f :: rest => if f.1 = path then some f.2 else lookupFile rest path

/-- `rename(file, hashedPath)`: the entry keeps its contents under the
new path. -/
def renameInTree (tree : OutTree) (src dst : JStr) : OutTree :=
  tree.map fun f => if f.1 = src then (dst, f.2) else f

/-- `writeFile(path, content)` on an existing file. -/
def writeFileTree (tree : OutTree) (path content : JStr) : OutTree :=
  tree.map fun f => if f.1 = path then (path, content) else f

/-- The backslash-to-slash normalization applied to the recorded
relative paths. -/
def bsNorm (p : JStr) : JStr := p.map fun c => if c = '\\' then '/' else c

/-- The hashed path for one asset: `<base>-<hash><ext>` next to the
original, the hash being the first 10 hex characters of the SHA-256 of
the file bytes. -/
def hashedPathOf (file content : JStr) : JStr :=
  let ext := extnameJ file
  joinJ (dirnameJ file)
    (basenameSuffix file ext ++ js "-" ++ hashOf (utf8Bytes content) ++ ext)

/-- One iteration of the hash-and-rename loop of `cacheBustAssets`
(`src/build/assets.ts`): read, hash, rename, record.  A failed read
(the caught error path) leaves the state unchanged. -/
def renameStep (st : OutTree × List (JStr × JStr)) (file : JStr) :
    OutTree × List (JStr × JStr) :=
  match lookupFile st.1 file with
  | none => st
  | some content =>
    let hashedPath := hashedPathOf file content
    (renameInTree st.1 file hashedPath,
      st.2 ++ [(bsNorm file, bsNorm hashedPath)])

/-- The HTML reference rewriting for one file: all CSS entries through
the `<link href>` pattern, then all JS entries through the
`<script src>` pattern, in asset-map insertion order. -/
def updateHtmlRefs (assetMap : List (JStr × JStr)) (html : JStr) : JStr :=
  let h1 := assetMap.foldl (fun h e =>
    if jsEndsWith e.1 (js ".css") then linkReplace e.1 e.2 h else h) html
  assetMap.foldl (fun h e =>
    if jsEndsWith e.1 (js ".js") then scriptReplace e.1 e.2 h else h) h1

/-- `cacheBustAssets` from `src/build/assets.ts`: every `.css`/`.js`
file of the walk is hashed and renamed and the original-to-hashed
mapping recorded; only after all renames does the pass over the
`.html` files rewrite references using the complete map.  Returns the
resulting tree and the asset map. -/
def cacheBustAssets (tree : OutTree) : OutTree × List (JStr × JStr) :=
  let files := tree.map Prod.fst
  let assetFiles := files.filter fun f =>
    getExt f == js ".css" || getExt f == js ".js"
  let phase1 := assetFiles.foldl renameStep (tree, [])
  let htmlFiles := files.filter fun f => getExt f == js ".html"
  let tree2 := htmlFiles.foldl (fun t hf =>
    match lookupFile t hf with
    | none => t
    | some html => writeFileTree t hf (updateHtmlRefs phase1.2 html)) phase1.1
  (tree2, phase1.2)

end CacheBust

section CacheBustTheorems

lemma lookupFile_renameInTree (t : OutTree) (src dst q : JStr)
    (h1 : q ≠ src) (h2 : q ≠ dst) :
    lookupFile (renameInTree t src dst) q = lookupFile t q := by
  induction t with
  | nil => rfl
  | cons f rest ih =>
    simp only [renameInTree, List.map_cons]
    by_cases hf : f.1 = src
    · rw [if_pos hf]
      simp only [lookupFile]
      rw [if_neg (fun hc => h2 hc.symm), if_neg (fun hc => h1 (hf ▸ hc).symm)]
      exact ih
    · rw [if_neg hf]
      simp only [lookupFile]
      by_cases hq : f.1 = q
      · rw [if_pos hq, if_pos hq]
      · rw [if_neg hq, if_neg hq]
        exact ih

lemma lookupFile_mem (t : OutTree) (p : JStr) (c : JStr)
    (hnd : (t.map Prod.fst).Nodup) (hm : (p, c) ∈ t) :
    lookupFile t p = some c := by
  induction t with
  | nil => exact absurd hm (List.not_mem_nil _)
  | cons f rest ih =>
    simp only [List.map_cons, List.nodup_cons] at hnd
    rcases List.mem_cons.mp hm with rfl | hm2
    · simp [lookupFile]
    · simp only [lookupFile]
      by_cases hq : f.1 = p
      · exfalso
        apply hnd.1
        rw [hq]
        exact List.mem_map_of_mem Prod.fst hm2
      · rw [if_neg hq]
        exact ih hnd.2 hm2

lemma map_fst_filter (t : OutTree) (g : JStr → Bool) :
    (t.filter fun f => g f.1).map Prod.fst = (t.map Prod.fst).filter g := by
  induction t with
  | nil => rfl
  | cons f rest ih =>
    simp only [List.filter_cons, List.map_cons, List.filter_cons]
    by_cases h : g f.1
    · rw [if_pos (by simp [h]), if_pos (by simp [h]), List.map_cons, ih]
    · rw [if_neg (by simp [h]), if_neg (by simp [h]), ih]

lemma phase1_spec (l : OutTree) (tree : OutTree) :
    ∀ (t : OutTree) (acc : List (JStr × JStr)),
    (∀ pc ∈ l, lookupFile t pc.1 = some pc.2) →
    (l.map Prod.fst).Nodup →
    (∀ pc ∈ l, ∀ qd ∈ tree, hashedPathOf qd.1 qd.2 ≠ pc.1) →
    (∀ pc ∈ l, ∃ qd ∈ tree, pc.1 = qd.1 ∧ pc.2 = qd.2) →
    ((l.map Prod.fst).foldl renameStep (t, acc)).2
      = acc ++ l.map fun pc => (bsNorm pc.1, bsNorm (hashedPathOf pc.1 pc.2)) := by
  induction l with
  | nil =>
    intro t acc _ _ _ _
    simp
  | cons pc rest ih =>
    intro t acc hlook hnd hfresh hsub
    simp only [List.map_cons, List.foldl_cons]
    have hstep : renameStep (t, acc) pc.1
        = (renameInTree t pc.1 (hashedPathOf pc.1 pc.2),
            acc ++ [(bsNorm pc.1, bsNorm (hashedPathOf pc.1 pc.2))]) := by
      simp only [renameStep, hlook pc (List.mem_cons_self pc rest)]
    rw [hstep]
    simp only [List.map_cons, List.nodup_cons] at hnd
    have hrec := ih (renameInTree t pc.1 (hashedPathOf pc.1 pc.2))
      (acc ++ [(bsNorm pc.1, bsNorm (hashedPathOf pc.1 pc.2))])
      (fun qd hqd => by
        rw [lookupFile_renameInTree]
        · exact hlook qd (List.mem_cons_of_mem pc hqd)
        · intro hc
          apply hnd.1
          rw [← hc]
          exact List.mem_map_of_mem Prod.fst hqd
        · intro hc
          obtain ⟨od, hod, hod1, hod2⟩ := hsub pc (List.mem_cons_self pc rest)
          apply hfresh qd (List.mem_cons_of_mem pc hqd) od hod
          rw [hod1, hod2] at hc
          exact hc.symm)
      hnd.2
      (fun a ha b hb => hfresh a (List.mem_cons_of_mem pc ha) b hb)
      (fun a ha => hsub a (List.mem_cons_of_mem pc ha))
    rw [hrec]
    simp

end CacheBustTheorems

/-- The demonstration output tree of the cache-busting scenario: one
style sheet, one script, one page referencing both root-absolutely. -/
def demoCss : JStr := js "body{margin:0}"

/-- Script contents of the scenario. -/
def demoJs : JStr := js "console.log(1);"

/-- Page contents of the scenario. -/
def demoHtml : JStr :=
  js "<link rel=\"stylesheet\" href=\"/style.css\"><script src=\"/app.js\"></script>"

/-- The scenario tree, in walk order. -/
def demoTree : OutTree :=
  [(js "style.css", demoCss), (js "app.js", demoJs), (js "index.html", demoHtml)]

set_option maxRecDepth 40000 in
/-- Claim C3: the cache-busting stage renames every `.css`/`.js` file
to `<base>-<hash><ext>` with the hash computed from the file bytes
alone (the map formula depends on the content only through
`hashOf (utf8Bytes content)`, so byte-identical files always receive
the identical hash — determinism), and records the original-to-hashed
mapping, all renames completing before any HTML rewriting (the map
passed to the rewrite pass is the completed one, by construction and
visible in the scenario below, where both references are rewritten);
in the concrete one-stylesheet scenario exactly one `.css` file
remains, named `style-<hex>.css`, and the HTML reference points at
it.  The general conjunct assumes distinct tree paths and that no
hashed name collides with an existing path (true of any real output
tree). -/
theorem c3_cache_busting :
    (∀ tree : OutTree,
      (tree.map Prod.fst).Nodup →
      (∀ pc ∈ tree, ∀ qd ∈ tree, hashedPathOf qd.1 qd.2 ≠ pc.1) →
      (cacheBustAssets tree).2
        = (tree.filter fun f =>
              getExt f.1 == js ".css" || getExt f.1 == js ".js").map
            fun f => (bsNorm f.1, bsNorm (hashedPathOf f.1 f.2))) ∧
    (cacheBustAssets demoTree).2
      = [(js "style.css", js "style-2007703776.css"),
         (js "app.js", js "app-35c146f76e.js")] ∧
    (cacheBustAssets demoTree).1
      = [(js "style-2007703776.css", demoCss),
         (js "app-35c146f76e.js", demoJs),
         (js "index.html",
          js "<link rel=\"stylesheet\" href=\"/style-2007703776.css\"><script src=\"/app-35c146f76e.js\"></script>")] ∧
    ((cacheBustAssets demoTree).1.map Prod.fst).filter
        (fun p => getExt p == js ".css")
      = [js "style-2007703776.css"] := by
  refine ⟨?_, by decide, by decide, by decide⟩
  intro tree hnd hfresh
  have hfl := map_fst_filter tree
    (fun p => getExt p == js ".css" || getExt p == js ".js")
  simp only [cacheBustAssets]
  rw [← hfl]
  rw [phase1_spec
    (tree.filter fun f => getExt f.1 == js ".css" || getExt f.1 == js ".js")
    tree tree []
    (fun pc hpc => by
      have hm : (pc.1, pc.2) ∈ tree := by
        rw [Prod.mk.eta]
        exact List.mem_of_mem_filter hpc
      exact lookupFile_mem tree pc.1 pc.2 hnd hm)
    (by
      rw [hfl]
      exact hnd.filter _)
    (fun pc hpc qd hqd =>
      hfresh (pc.1, pc.2) (Prod.mk.eta ▸ List.mem_of_mem_filter hpc) qd hqd)
    (fun pc hpc => ⟨pc, List.mem_of_mem_filter hpc, rfl, rfl⟩)]
  simp

set_option maxRecDepth 40000 in
/-- Witness for `c3_cache_busting` (first conjunct) at the one-file
tree containing only the scenario's style sheet. -/
theorem c3_witness :
    (cacheBustAssets [(js "style.css", demoCss)]).2
      = ([(js "style.css", demoCss)].filter fun f =>
            getExt f.1 == js ".css" || getExt f.1 == js ".js").map
          (fun f => (bsNorm f.1, bsNorm (hashedPathOf f.1 f.2))) :=
  c3_cache_busting.1 [(js "style.css", demoCss)] (by decide) (by decide)

section RootAbsolute

/-- Browser resolution of a path-only reference against the directory
of the containing document: a root-absolute reference resolves from
the site root, a relative one from the document's directory. -/
def resolveRef (docDir ref : JStr) : JStr :=
  if jsStartsWith ref (js "/") then ref.drop 1
  else if docDir = [] then ref
  else docDir ++ js "/" ++ ref

set_option maxRecDepth 40000 in
/-- Claim C10: every replacement the cache-busting rewrite produces is
root-absolute — a successful match is replaced by group 1 followed by
`"/" + hashed + closing quote`, whatever the matched attribute value
looked like — and in particular a document-relative
`href="style.css"` inside `sub/page.html` is rewritten to the
root-absolute `"/style-<hash>.css"`, which resolves to a different
path than the original reference did. -/
theorem c10_root_absolute_rewrite :
    (∀ (tag attr orig hashed : JStr) (fuel : Nat) (c : Char) (rest : JStr)
        (g1 post : Nat) (q2 : Char),
      tryMatchAt tag attr orig (c :: rest) = some (g1, post, q2) →
      scanReplace tag attr orig hashed (fuel + 1) (c :: rest)
        = (c :: rest).take g1 ++ js "/" ++ hashed ++ [q2]
          ++ scanReplace tag attr orig hashed fuel
              ((c :: rest).drop (g1 + post))) ∧
    (cacheBustAssets
        [(js "style.css", demoCss),
         (js "sub/page.html", js "<link rel=\"x\" href=\"style.css\">")]).1
      = [(js "style-2007703776.css", demoCss),
         (js "sub/page.html",
          js "<link rel=\"x\" href=\"/style-2007703776.css\">")] ∧
    resolveRef (js "sub") (js "style.css") = js "sub/style.css" ∧
    resolveRef (js "sub") (js "/style-2007703776.css")
      = js "style-2007703776.css" ∧
    (js "sub/style.css" : JStr) ≠ js "style.css" := by
  refine ⟨?_, by decide, by decide, by decide, by decide⟩
  intro tag attr orig hashed fuel c rest g1 post q2 h
  simp only [scanReplace, h]

set_option maxRecDepth 40000 in
/-- Witness for `c10_root_absolute_rewrite` (first conjunct) at the
concrete match of `href="style.css"`. -/
theorem c10_witness :
    scanReplace (js "<link") (js "href=") (js "style.css")
        (js "style-2007703776.css") 31
        (js "<link rel=\"x\" href=\"style.css\">")
      = (js "<link rel=\"x\" href=\"style.css\">").take 20
        ++ js "/" ++ js "style-2007703776.css" ++ ['"']
        ++ scanReplace (js "<link") (js "href=") (js "style.css")
            (js "style-2007703776.css") 30
            ((js "<link rel=\"x\" href=\"style.css\">").drop 30) := by
  have h := c10_root_absolute_rewrite.1 (js "<link") (js "href=")
    (js "style.css") (js "style-2007703776.css") 30 '<'
    (js "link rel=\"x\" href=\"style.css\">") 20 10 '"' (by decide)
  exact h

end RootAbsolute
